import Mathlib

/-!
# Mesh objects and their model matrix (`three::scene::Object`)

A shallow embedding of `src/three/core/scene/object.cpp`.

* `float` arithmetic is idealised as exact arithmetic in a field `α`; the
  three library functions the code reaches (`sqrt`, `cos`, `sin`) are carried
  as a parameter `cmath α`, so every definition is executable once a concrete
  field and concrete functions are supplied.
* The `glm` functions the code calls are transcribed from the glm headers
  (`glm/ext/matrix_transform.inl`, `glm/detail/func_geometric.inl`); glm
  matrices are column-major, `m[i]` being column `i`.
* Owned buffers (`std::unique_ptr<T[]>`) are lists; every subscript is a checked
  access that yields `Error.out_of_bounds` where the C++ subscript would leave
  the buffer.
* `py::tuple` arguments are taken as tuples of the arity the callee reads, with
  `cast<float>()` the identity; numpy arrays are a shape plus the rank-2
  element accessor. Row counts are taken within the range of `int`; the
  product `_num_faces * 3`, computed in `int`, is checked, and yields
  `Error.int_overflow` where it would exceed `INT_MAX`.
* Division by zero has no faithful value in a field: where `sqrt(dot(v, v))`
  is zero, `normalize` in `float` gives NaN or infinite components, while the
  field value of `1 / 0` is `0`. That value is a placeholder; the statements
  about unit length assume that the square roots divided by are not zero.
-/

namespace glm

/-- Three-component vector `glm::vec<3, T>`. -/
@[ext]
structure vec3 (α : Type) where
  x : α
  y : α
  z : α
deriving DecidableEq, Repr

/-- Four-component vector `glm::vec<4, T>`. -/
structure vec4 (α : Type) where
  x : α
  y : α
  z : α
  w : α
deriving DecidableEq, Repr

/-- Column-major 4×4 matrix `glm::mat4`: `c0 .. c3` are `m[0] .. m[3]`. -/
structure mat4 (α : Type) where
  c0 : vec4 α
  c1 : vec4 α
  c2 : vec4 α
  c3 : vec4 α
deriving DecidableEq, Repr

/-- Index triple `glm::vec3i` (`vec<3, int>`). -/
abbrev vec3i := vec3 Int

/-- The `<cmath>` functions reached through glm. -/
structure cmath (α : Type) where
  sqrt : α → α
  cos : α → α
  sin : α → α

variable {α : Type}

/-- Subscript `v[k]` of a three-component vector, for `k` in 0..2. -/
def vec3.get (v : vec3 α) (k : Fin 3) : α :=
  match k with
  | 0 => v.x
  | 1 => v.y
  | 2 => v.z

section arithmetic
variable [Field α]

/-- Splat constructor `glm::vec3(s)`. -/
def vec3.splat (s : α) : vec3 α := ⟨s, s, s⟩

instance : Zero (vec3 α) := ⟨vec3.splat 0⟩

instance : Add (vec3 α) := ⟨fun a b => ⟨a.x + b.x, a.y + b.y, a.z + b.z⟩⟩

instance : Sub (vec3 α) := ⟨fun a b => ⟨a.x - b.x, a.y - b.y, a.z - b.z⟩⟩

instance : Neg (vec3 α) := ⟨fun a => ⟨-a.x, -a.y, -a.z⟩⟩

instance : AddCommMonoid (vec3 α) where
  add := (· + ·)
  zero := 0
  nsmul := nsmulRec
  add_assoc := fun a b c =>
    vec3.ext (add_assoc a.x b.x c.x) (add_assoc a.y b.y c.y) (add_assoc a.z b.z c.z)
  zero_add := fun a => vec3.ext (zero_add a.x) (zero_add a.y) (zero_add a.z)
  add_zero := fun a => vec3.ext (add_zero a.x) (add_zero a.y) (add_zero a.z)
  add_comm := fun a b => vec3.ext (add_comm a.x b.x) (add_comm a.y b.y) (add_comm a.z b.z)

/-- Vector times scalar, `v * s`. -/
def vec3.smul (v : vec3 α) (s : α) : vec3 α := ⟨v.x * s, v.y * s, v.z * s⟩

/-- Scalar times vector, `s * v`. -/
def vec3.lsmul (s : α) (v : vec3 α) : vec3 α := ⟨s * v.x, s * v.y, s * v.z⟩

/-- Four-vector times scalar, `v * s`. -/
def vec4.smul (v : vec4 α) (s : α) : vec4 α := ⟨v.x * s, v.y * s, v.z * s, v.w * s⟩

instance : Add (vec4 α) := ⟨fun a b => ⟨a.x + b.x, a.y + b.y, a.z + b.z, a.w + b.w⟩⟩

/-- Dot product `glm::dot`: the componentwise product, summed `x + y + z`. -/
def dot (a b : vec3 α) : α := a.x * b.x + a.y * b.y + a.z * b.z

/-- Cross product `glm::cross`. -/
def cross (a b : vec3 α) : vec3 α :=
  ⟨a.y * b.z - b.y * a.z, a.z * b.x - b.z * a.x, a.x * b.y - b.x * a.y⟩

/-- Reciprocal square root `glm::inversesqrt(x) = 1 / sqrt(x)`. -/
def inversesqrt (L : cmath α) (x : α) : α := 1 / L.sqrt x

/-- Normalisation `glm::normalize(v) = v * inversesqrt(dot(v, v))`. Where
`sqrt(dot(v, v))` is zero the `float` result is not a number; the value here,
from `1 / 0 = 0`, stands for it only as a placeholder. -/
def normalize (L : cmath α) (v : vec3 α) : vec3 α := v.smul (inversesqrt L (dot v v))

/-- Identity matrix `glm::mat4(1.0)`. -/
def mat4.identity : mat4 α :=
  ⟨⟨1, 0, 0, 0⟩, ⟨0, 1, 0, 0⟩, ⟨0, 0, 1, 0⟩, ⟨0, 0, 0, 1⟩⟩

/-- Translation `glm::translate(m, v)`: only the last column changes. -/
def translate (m : mat4 α) (v : vec3 α) : mat4 α :=
  { m with c3 := m.c0.smul v.x + m.c1.smul v.y + m.c2.smul v.z + m.c3 }

/-- Rotation `glm::rotate(m, angle, v)` about the axis `v`. -/
def rotate (L : cmath α) (m : mat4 α) (angle : α) (v : vec3 α) : mat4 α :=
  let a := angle
  let c := L.cos a
  let s := L.sin a
  let axis := normalize L v
  let temp := vec3.lsmul (1 - c) axis
  let r00 := c + temp.x * axis.x
  let r01 := temp.x * axis.y + s * axis.z
  let r02 := temp.x * axis.z - s * axis.y
  let r10 := temp.y * axis.x - s * axis.z
  let r11 := c + temp.y * axis.y
  let r12 := temp.y * axis.z + s * axis.x
  let r20 := temp.z * axis.x + s * axis.y
  let r21 := temp.z * axis.y - s * axis.x
  let r22 := c + temp.z * axis.z
  { c0 := m.c0.smul r00 + m.c1.smul r01 + m.c2.smul r02
    c1 := m.c0.smul r10 + m.c1.smul r11 + m.c2.smul r12
    c2 := m.c0.smul r20 + m.c1.smul r21 + m.c2.smul r22
    c3 := m.c3 }

/-- Scaling `glm::scale(m, v)`: the first three columns are scaled. -/
def scale (m : mat4 α) (v : vec3 α) : mat4 α :=
  { c0 := m.c0.smul v.x, c1 := m.c1.smul v.y, c2 := m.c2.smul v.z, c3 := m.c3 }

/-- Entry view of a column-major matrix: row `i`, column `j` is `m[j][i]`. -/
def mat4.toMatrix (m : mat4 α) : Matrix (Fin 4) (Fin 4) α :=
  !![m.c0.x, m.c1.x, m.c2.x, m.c3.x;
     m.c0.y, m.c1.y, m.c2.y, m.c3.y;
     m.c0.z, m.c1.z, m.c2.z, m.c3.z;
     m.c0.w, m.c1.w, m.c2.w, m.c3.w]

end arithmetic

end glm

namespace three.scene

open glm

variable {α : Type}

/-- Failures of the constructor: the `std::runtime_error` thrown by shape
validation, a subscript that leaves its buffer, and signed overflow of an `int`
product; the last two are undefined behaviour in C++. -/
inductive Error where
  | runtime_error (what : String)
  | out_of_bounds
  | int_overflow
deriving DecidableEq, Repr

/-- A numpy array as `py::array_t<T>` presents it: its shape, and the element
read at `(i, j)` through the rank-2 unchecked proxy. -/
structure array_t (β : Type) where
  shape : List Nat
  at2 : Nat → Nat → β

/-- Rank `ndim()`. -/
def array_t.ndim {β : Type} (a : array_t β) : Nat := a.shape.length

/-- Extent `shape(i)` of axis `i`. -/
def array_t.shape_at {β : Type} (a : array_t β) (i : Nat) : Nat := a.shape.getD i 0

/-- Checked read `buf[i]`. -/
def load {β : Type} (buf : List β) (i : Int) : Except Error β :=
  if 0 ≤ i then
    match buf[i.toNat]? with
    | some v => .ok v
    | none => .error .out_of_bounds
  else .error .out_of_bounds

/-- Checked write `buf[i] = v`. -/
def store {β : Type} (buf : List β) (i : Int) (v : β) : Except Error (List β) :=
  if 0 ≤ i ∧ i.toNat < buf.length then .ok (buf.set i.toNat v) else .error .out_of_bounds

/-- Largest value of the 32-bit type `int`. -/
def INT_MAX : Nat := 2147483647

/-- Product `a * b` of two non-negative `int` values, computed in `int`: a
result above `INT_MAX` is signed overflow. -/
def int_mul (a b : Nat) : Except Error Nat :=
  if a * b ≤ INT_MAX then .ok (a * b) else .error .int_overflow

/-- Counting loop `for (ssize_t i = 0; i < n; i++) body`, threading the state. -/
def for_range {σ : Type} (n : Nat) (body : Nat → σ → Except Error σ) (s : σ) :
    Except Error σ :=
  (List.range n).foldlM (fun s i => body i s) s

/-- The rank-2 array holding the given rows. -/
def array_t.of_rows {β : Type} [Inhabited β] (rows : List (List β)) : array_t β where
  shape := [rows.length, (rows.headD []).length]
  at2 := fun i j => (rows.getD i []).getD j default

/-- The computation does not end in a thrown `std::runtime_error`. -/
def no_throw {β : Type} (r : Except Error β) : Prop :=
  ∀ what, r ≠ .error (.runtime_error what)

/-- State of a `three::scene::Object`, field for field. -/
structure Object (α : Type) where
  faces : List vec3i
  vertices : List (vec3 α)
  face_vertices : List (vec3 α)
  face_normal_vectors : List (vec3 α)
  face_vertex_normal_vectors : List (vec3 α)
  num_faces : Nat
  num_vertices : Nat
  position : vec3 α
  rotation_rad : vec3 α
  color : vec4 α
  scale : vec3 α
  model_matrix : mat4 α
deriving DecidableEq, Repr

section transform
variable [Field α]

/-- Method `Object::_update_model_matrix`: identity, then translate, rotate about
X, Y and Z, then scale. -/
def Object._update_model_matrix (L : cmath α) (o : Object α) : Object α :=
  let m0 : mat4 α := mat4.identity
  let m1 := translate m0 o.position
  let m2 := rotate L m1 o.rotation_rad.x ⟨1, 0, 0⟩
  let m3 := rotate L m2 o.rotation_rad.y ⟨0, 1, 0⟩
  let m4 := rotate L m3 o.rotation_rad.z ⟨0, 0, 1⟩
  { o with model_matrix := glm.scale m4 o.scale }

/-- Method `Object::set_color`: the four colour components are overwritten. -/
def Object.set_color (o : Object α) (color : vec4 α) : Object α :=
  { o with color := ⟨color.x, color.y, color.z, color.w⟩ }

/-- Method `Object::set_scale`: overwrite the scale, then recompute the matrix. -/
def Object.set_scale (L : cmath α) (o : Object α) (scale : vec3 α) : Object α :=
  Object._update_model_matrix L { o with scale := ⟨scale.x, scale.y, scale.z⟩ }

/-- Method `Object::set_position`: overwrite the position, then recompute. -/
def Object.set_position (L : cmath α) (o : Object α) (position : vec3 α) : Object α :=
  Object._update_model_matrix L { o with position := ⟨position.x, position.y, position.z⟩ }

/-- Method `Object::set_rotation`: overwrite the rotation, then recompute. -/
def Object.set_rotation (L : cmath α) (o : Object α) (rotation_rad : vec3 α) : Object α :=
  Object._update_model_matrix L
    { o with rotation_rad := ⟨rotation_rad.x, rotation_rad.y, rotation_rad.z⟩ }

/-- Row `i` of a three-column table, as the constructor reads it:
`(a(i, 0), a(i, 1), a(i, 2))`. -/
def array_t.row {β : Type} (a : array_t β) (i : Nat) : vec3 β := ⟨a.at2 i 0, a.at2 i 1, a.at2 i 2⟩

/-- Body of the loop at lines 31-33: copy one row of the face table. -/
def copy_face_step (np_faces : array_t Int) (face_index : Nat) (_faces : List vec3i) :
    Except Error (List vec3i) :=
  store _faces face_index (np_faces.row face_index)

/-- Body of the loop at lines 37-40: copy one row of the position table and
clear the accumulator of that vertex. The state is
`(_vertices, vertex_normal_vectors)`. -/
def copy_vertex_step (np_vertices : array_t α) (vertex_index : Nat)
    (st : List (vec3 α) × List (vec3 α)) : Except Error (List (vec3 α) × List (vec3 α)) := do
  let _vertices ← store st.1 vertex_index (np_vertices.row vertex_index)
  let vertex_normal_vectors ← store st.2 vertex_index (vec3.splat 0)
  pure (_vertices, vertex_normal_vectors)

/-- Compound assignment `buf[i] += v`. -/
def add_at (buf : List (vec3 α)) (i : Int) (v : vec3 α) : Except Error (List (vec3 α)) := do
  let old ← load buf i
  store buf i (old + v)

/-- Body of the loop at lines 42-64. The state is
`(_face_vertices, _face_normal_vectors, vertex_normal_vectors)`. -/
def face_step (L : cmath α) (_faces : List vec3i) (_vertices : List (vec3 α))
    (face_index : Nat) (st : List (vec3 α) × List (vec3 α) × List (vec3 α)) :
    Except Error (List (vec3 α) × List (vec3 α) × List (vec3 α)) := do
  let face ← load _faces face_index
  let va ← load _vertices face.x
  let vb ← load _vertices face.y
  let vc ← load _vertices face.z
  let vba := vb - va
  let vca := vc - va
  let normal := normalize L (cross vba vca)
  let fv ← store st.1 (face_index * 3 + 0) va
  let fv ← store fv (face_index * 3 + 1) vb
  let fv ← store fv (face_index * 3 + 2) vc
  let fn ← store st.2.1 (face_index * 3 + 0) normal
  let fn ← store fn (face_index * 3 + 1) normal
  let fn ← store fn (face_index * 3 + 2) normal
  let vn ← add_at st.2.2 face.x normal
  let vn ← add_at vn face.y normal
  let vn ← add_at vn face.z normal
  pure (fv, fn, vn)

/-- Body of the loop at lines 66-68: normalise one accumulator in place. -/
def normalize_step (L : cmath α) (vertex_index : Nat) (vertex_normal_vectors : List (vec3 α)) :
    Except Error (List (vec3 α)) := do
  let acc ← load vertex_normal_vectors vertex_index
  store vertex_normal_vectors vertex_index (normalize L acc)

/-- Body of the loop at lines 70-75: look up the smoothed normal of each of the
three vertices of one face. -/
def expand_step (_faces : List vec3i) (vertex_normal_vectors : List (vec3 α))
    (face_index : Nat) (fvn : List (vec3 α)) : Except Error (List (vec3 α)) := do
  let face ← load _faces face_index
  let n0 ← load vertex_normal_vectors face.x
  let fvn ← store fvn (face_index * 3 + 0) n0
  let n1 ← load vertex_normal_vectors face.y
  let fvn ← store fvn (face_index * 3 + 1) n1
  let n2 ← load vertex_normal_vectors face.z
  store fvn (face_index * 3 + 2) n2

/-- Shape validation, lines 9-20: four guards in sequence, each throwing. -/
def validate (np_faces : array_t Int) (np_vertices : array_t α) : Except Error Unit :=
  if np_faces.ndim ≠ 2 then
    .error (Error.runtime_error "(np_faces.ndim() != 2) -> false")
  else if np_vertices.ndim ≠ 2 then
    .error (Error.runtime_error "(np_vertices.ndim() != 2) -> false")
  else if np_faces.shape_at 1 ≠ 3 then
    .error (Error.runtime_error "(np_faces.shape(1) != 3) -> false")
  else if np_vertices.shape_at 1 ≠ 3 then
    .error (Error.runtime_error "(np_vertices.shape(1) != 3) -> false")
  else
    .ok ()

/-- Constructor `Object::Object(np_faces, np_vertices, color, scale)`.
`std::make_unique<T[]>(n)` value-initialises, so fresh buffers hold zeros. The
size `_num_faces * 3` of each derived buffer is a product in `int`. The
members `_color`, `_scale` and `_model_matrix` are written by `set_color`,
`set_scale` and `_update_model_matrix` before anything reads them. -/
def Object.new (L : cmath α) (np_faces : array_t Int) (np_vertices : array_t α)
    (color : vec4 α) (scale : vec3 α) : Except Error (Object α) := do
  validate np_faces np_vertices
  let _num_faces := np_faces.shape_at 0
  let _num_vertices := np_vertices.shape_at 0
  let _faces : List vec3i := List.replicate _num_faces ⟨0, 0, 0⟩
  let _vertices : List (vec3 α) := List.replicate _num_vertices 0
  let size_face_vertices ← int_mul _num_faces 3
  let _face_vertices : List (vec3 α) := List.replicate size_face_vertices 0
  let size_face_normal_vectors ← int_mul _num_faces 3
  let _face_normal_vectors : List (vec3 α) := List.replicate size_face_normal_vectors 0
  let size_face_vertex_normal_vectors ← int_mul _num_faces 3
  let _face_vertex_normal_vectors : List (vec3 α) :=
    List.replicate size_face_vertex_normal_vectors 0
  let _faces ← for_range _num_faces (copy_face_step np_faces) _faces
  let vertex_normal_vectors : List (vec3 α) := List.replicate _num_vertices 0
  let vs ← for_range _num_vertices (copy_vertex_step np_vertices)
    (_vertices, vertex_normal_vectors)
  let _vertices := vs.1
  let fs ← for_range _num_faces (face_step L _faces _vertices)
    (_face_vertices, _face_normal_vectors, vs.2)
  let vertex_normal_vectors ← for_range _num_vertices (normalize_step L) fs.2.2
  let _face_vertex_normal_vectors ← for_range _num_faces
    (expand_step _faces vertex_normal_vectors) _face_vertex_normal_vectors
  let o : Object α :=
    { faces := _faces
      vertices := _vertices
      face_vertices := fs.1
      face_normal_vectors := fs.2.1
      face_vertex_normal_vectors := _face_vertex_normal_vectors
      num_faces := _num_faces
      num_vertices := _num_vertices
      position := vec3.splat 0
      rotation_rad := vec3.splat 0
      color := ⟨0, 0, 0, 0⟩
      scale := vec3.splat 0
      model_matrix := mat4.identity }
  let o := o.set_color color
  let o := o.set_scale L scale
  pure (o._update_model_matrix L)

/-- Body of the inner loop at lines 96-100: copy one entry of each derived
buffer. The state is
`(_face_vertices, _face_normal_vectors, _face_vertex_normal_vectors)`. -/
def clone_offset_step (source : Object α) (face_index offset : Nat)
    (st : List (vec3 α) × List (vec3 α) × List (vec3 α)) :
    Except Error (List (vec3 α) × List (vec3 α) × List (vec3 α)) := do
  let a ← load source.face_vertices (face_index * 3 + offset)
  let fv ← store st.1 (face_index * 3 + offset) a
  let b ← load source.face_normal_vectors (face_index * 3 + offset)
  let fn ← store st.2.1 (face_index * 3 + offset) b
  let c ← load source.face_vertex_normal_vectors (face_index * 3 + offset)
  let fvn ← store st.2.2 (face_index * 3 + offset) c
  pure (fv, fn, fvn)

/-- Body of the loop at lines 94-101. The state is `_faces` and the three
derived buffers. -/
def clone_face_step (source : Object α) (face_index : Nat)
    (st : List vec3i × List (vec3 α) × List (vec3 α) × List (vec3 α)) :
    Except Error (List vec3i × List (vec3 α) × List (vec3 α) × List (vec3 α)) := do
  let face ← load source.faces face_index
  let _faces ← store st.1 face_index face
  let bufs ← for_range 3 (clone_offset_step source face_index) st.2
  pure (_faces, bufs)

/-- Body of the loop at lines 103-105. -/
def clone_vertex_step (source : Object α) (vertex_index : Nat) (_vertices : List (vec3 α)) :
    Except Error (List (vec3 α)) := do
  let v ← load source.vertices vertex_index
  store _vertices vertex_index v

/-- Copy constructor `Object::Object(const Object* source)`; the sizes
`_num_faces * 3` are products in `int`, as in the constructor. -/
def Object.new_copy (source : Object α) : Except Error (Object α) := do
  let _num_faces := source.num_faces
  let _num_vertices := source.num_vertices
  let _faces : List vec3i := List.replicate _num_faces ⟨0, 0, 0⟩
  let _vertices : List (vec3 α) := List.replicate _num_vertices 0
  let size_face_vertices ← int_mul _num_faces 3
  let _face_vertices : List (vec3 α) := List.replicate size_face_vertices 0
  let size_face_normal_vectors ← int_mul _num_faces 3
  let _face_normal_vectors : List (vec3 α) := List.replicate size_face_normal_vectors 0
  let size_face_vertex_normal_vectors ← int_mul _num_faces 3
  let _face_vertex_normal_vectors : List (vec3 α) :=
    List.replicate size_face_vertex_normal_vectors 0
  let fs ← for_range _num_faces (clone_face_step source)
    (_faces, _face_vertices, _face_normal_vectors, _face_vertex_normal_vectors)
  let _vertices ← for_range _num_vertices (clone_vertex_step source) _vertices
  pure
    { faces := fs.1
      vertices := _vertices
      face_vertices := fs.2.1
      face_normal_vectors := fs.2.2.1
      face_vertex_normal_vectors := fs.2.2.2
      num_faces := _num_faces
      num_vertices := _num_vertices
      position := source.position
      rotation_rad := source.rotation_rad
      color := source.color
      scale := source.scale
      model_matrix := source.model_matrix }

/-- Method `Object::clone`: a new object built by the copy constructor. -/
def Object.clone (o : Object α) : Except Error (Object α) := Object.new_copy o

/-- Translation matrix `T(p)` of the composition rule. -/
def spec_T (p : vec3 α) : Matrix (Fin 4) (Fin 4) α :=
  !![1, 0, 0, p.x;
     0, 1, 0, p.y;
     0, 0, 1, p.z;
     0, 0, 0, 1]

/-- Right-handed rotation about the X axis, as a 3×3 block. -/
def spec_Rx3 (L : cmath α) (t : α) : Matrix (Fin 3) (Fin 3) α :=
  !![1, 0, 0;
     0, L.cos t, -L.sin t;
     0, L.sin t, L.cos t]

/-- Right-handed rotation about the Y axis, as a 3×3 block. -/
def spec_Ry3 (L : cmath α) (t : α) : Matrix (Fin 3) (Fin 3) α :=
  !![L.cos t, 0, L.sin t;
     0, 1, 0;
     -L.sin t, 0, L.cos t]

/-- Right-handed rotation about the Z axis, as a 3×3 block. -/
def spec_Rz3 (L : cmath α) (t : α) : Matrix (Fin 3) (Fin 3) α :=
  !![L.cos t, -L.sin t, 0;
     L.sin t, L.cos t, 0;
     0, 0, 1]

/-- Homogeneous 4×4 matrix of a linear 3×3 block. -/
def spec_homogeneous (r : Matrix (Fin 3) (Fin 3) α) : Matrix (Fin 4) (Fin 4) α :=
  !![r 0 0, r 0 1, r 0 2, 0;
     r 1 0, r 1 1, r 1 2, 0;
     r 2 0, r 2 1, r 2 2, 0;
     0, 0, 0, 1]

/-- Rotation matrix `Rx` of the composition rule. -/
def spec_Rx (L : cmath α) (t : α) : Matrix (Fin 4) (Fin 4) α := spec_homogeneous (spec_Rx3 L t)

/-- Rotation matrix `Ry` of the composition rule. -/
def spec_Ry (L : cmath α) (t : α) : Matrix (Fin 4) (Fin 4) α := spec_homogeneous (spec_Ry3 L t)

/-- Rotation matrix `Rz` of the composition rule. -/
def spec_Rz (L : cmath α) (t : α) : Matrix (Fin 4) (Fin 4) α := spec_homogeneous (spec_Rz3 L t)

/-- Diagonal scale matrix `S(s)` of the composition rule. -/
def spec_S (s : vec3 α) : Matrix (Fin 4) (Fin 4) α :=
  !![s.x, 0, 0, 0;
     0, s.y, 0, 0;
     0, 0, s.z, 0;
     0, 0, 0, 1]

/-- Position `vertices[i]`, read totally (zero outside the buffer). -/
def position_of (vertices : List (vec3 α)) (i : Int) : vec3 α := vertices.getD i.toNat 0

/-- Face `faces[g]`, read totally (zero outside the buffer). -/
def face_of (faces : List vec3i) (g : Nat) : vec3i := faces.getD g ⟨0, 0, 0⟩

/-- Flat normal of face `g`: the normalised cross product of its two edge
vectors `vb - va` and `vc - va`. -/
def spec_flat_normal (L : cmath α) (faces : List vec3i) (vertices : List (vec3 α)) (g : Nat) :
    vec3 α :=
  glm.normalize L
    (cross
      (position_of vertices (face_of faces g).y - position_of vertices (face_of faces g).x)
      (position_of vertices (face_of faces g).z - position_of vertices (face_of faces g).x))

/-- Cross product `cross(vb - va, vc - va)` of the two edge vectors of face `g`,
the vector whose normalisation is the flat normal. -/
def spec_face_cross (faces : List vec3i) (vertices : List (vec3 α)) (g : Nat) : vec3 α :=
  cross
    (position_of vertices (face_of faces g).y - position_of vertices (face_of faces g).x)
    (position_of vertices (face_of faces g).z - position_of vertices (face_of faces g).x)

/-- Unnormalised sum `A(v)` for vertex index `v`, over the first `n` faces: the
flat normal of face `g` is counted once for every slot `j` with
`faces[g][j] = v`. -/
def spec_accumulated (L : cmath α) (faces : List vec3i) (vertices : List (vec3 α)) (n : Nat)
    (v : Int) : vec3 α :=
  ∑ g in Finset.range n, ∑ j : Fin 3,
    if (face_of faces g).get j = v then spec_flat_normal L faces vertices g else 0

/-- Euclidean length of a vector. -/
def spec_length (L : cmath α) (v : vec3 α) : α := L.sqrt (v.x * v.x + v.y * v.y + v.z * v.z)

/-- A vector divided by a scalar, componentwise. -/
def spec_div (v : vec3 α) (s : α) : vec3 α := ⟨v.x / s, v.y / s, v.z / s⟩

/-- Invariant of the loop at lines 42-64 after `i` faces: buffer sizes, the
entries written for the faces below `i`, and the partial sums accumulated. -/
def face_pass_inv (L : cmath α) (faces : List vec3i) (vertices : List (vec3 α)) (nf nv i : Nat)
    (st : List (vec3 α) × List (vec3 α) × List (vec3 α)) : Prop :=
  st.1.length = nf * 3 ∧ st.2.1.length = nf * 3 ∧ st.2.2.length = nv ∧
  (∀ g, g < i → ∀ k : Fin 3,
    st.1[g * 3 + k.val]? = some (position_of vertices ((face_of faces g).get k)) ∧
    st.2.1[g * 3 + k.val]? = some (spec_flat_normal L faces vertices g)) ∧
  (∀ v, v < nv → st.2.2[v]? = some (spec_accumulated L faces vertices i v))

/-- Every index of row `f` of the face table lies in `[0, n)`. -/
def row_in_range (np_faces : array_t Int) (n f : Nat) : Prop :=
  ∀ k : Fin 3, 0 ≤ (np_faces.row f).get k ∧ ((np_faces.row f).get k).toNat < n

/-- What the constructor leaves in an object built from the two tables: the
sizes, the copied rows, and the three derived buffers entry by entry. -/
structure built_from (L : cmath α) (np_faces : array_t Int) (np_vertices : array_t α)
    (color : vec4 α) (scale : vec3 α) (o : Object α) : Prop where
  num_faces_eq : o.num_faces = np_faces.shape_at 0
  num_vertices_eq : o.num_vertices = np_vertices.shape_at 0
  derived_size_in_int : o.num_faces * 3 ≤ INT_MAX
  faces_length : o.faces.length = o.num_faces
  vertices_length : o.vertices.length = o.num_vertices
  face_vertices_length : o.face_vertices.length = o.num_faces * 3
  face_normal_vectors_length : o.face_normal_vectors.length = o.num_faces * 3
  face_vertex_normal_vectors_length : o.face_vertex_normal_vectors.length = o.num_faces * 3
  faces_row : ∀ f, f < o.num_faces → o.faces[f]? = some (np_faces.row f)
  vertices_row : ∀ v, v < o.num_vertices → o.vertices[v]? = some (np_vertices.row v)
  in_range : ∀ f, f < o.num_faces → row_in_range np_faces o.num_vertices f
  face_vertices_at : ∀ f, f < o.num_faces → ∀ k : Fin 3,
    o.face_vertices[f * 3 + k.val]? = some (position_of o.vertices ((face_of o.faces f).get k))
  face_normal_vectors_at : ∀ f, f < o.num_faces → ∀ k : Fin 3,
    o.face_normal_vectors[f * 3 + k.val]? = some (spec_flat_normal L o.faces o.vertices f)
  face_vertex_normal_vectors_at : ∀ f, f < o.num_faces → ∀ k : Fin 3,
    o.face_vertex_normal_vectors[f * 3 + k.val]?
      = some (glm.normalize L
          (spec_accumulated L o.faces o.vertices o.num_faces ((face_of o.faces f).get k)))
  position_eq : o.position = vec3.splat 0
  rotation_rad_eq : o.rotation_rad = vec3.splat 0
  color_eq : o.color = color
  scale_eq : o.scale = scale
  model_matrix_eq : o.model_matrix = (o._update_model_matrix L).model_matrix

/-- The composition `T · Rx · Ry · Rz · S` the rule names. -/
def spec_model_matrix (L : cmath α) (p r s : vec3 α) : Matrix (Fin 4) (Fin 4) α :=
  spec_T p * spec_Rx L r.x * spec_Ry L r.y * spec_Rz L r.z * spec_S s

/-- Buffer sizes of a live object: each owned buffer has the size it was
allocated with, `_num_faces`, `_num_vertices` or `_num_faces * 3` entries, the
last a value of `int`, as it was when the buffers were allocated. -/
structure Object.wf (o : Object α) : Prop where
  faces_length : o.faces.length = o.num_faces
  vertices_length : o.vertices.length = o.num_vertices
  face_vertices_length : o.face_vertices.length = o.num_faces * 3
  face_normal_vectors_length : o.face_normal_vectors.length = o.num_faces * 3
  face_vertex_normal_vectors_length : o.face_vertex_normal_vectors.length = o.num_faces * 3
  derived_size_in_int : o.num_faces * 3 ≤ INT_MAX

/-- Objects that exist: built by the constructor from the two tables, then
changed by any sequence of the four setters and of `clone`. -/
inductive reachable (L : cmath α) (np_faces : array_t Int) (np_vertices : array_t α) :
    Object α → Prop where
  | constructed (color : vec4 α) (scale : vec3 α) (o : Object α) :
      Object.new L np_faces np_vertices color scale = .ok o →
      reachable L np_faces np_vertices o
  | set_color (o : Object α) (color : vec4 α) :
      reachable L np_faces np_vertices o →
      reachable L np_faces np_vertices (o.set_color color)
  | set_scale (o : Object α) (scale : vec3 α) :
      reachable L np_faces np_vertices o →
      reachable L np_faces np_vertices (o.set_scale L scale)
  | set_position (o : Object α) (position : vec3 α) :
      reachable L np_faces np_vertices o →
      reachable L np_faces np_vertices (o.set_position L position)
  | set_rotation (o : Object α) (rotation_rad : vec3 α) :
      reachable L np_faces np_vertices o →
      reachable L np_faces np_vertices (o.set_rotation L rotation_rad)
  | cloned (o c : Object α) :
      reachable L np_faces np_vertices o → o.clone = .ok c →
      reachable L np_faces np_vertices c

/-- Heap form of `clone`: `std::make_shared<Object>(this)` allocates a new
object, here at the next free handle, and leaves every other object as it is.
Returns the heap and the handle of the clone. -/
def heap_clone (heap : List (Object α)) (this : Nat) :
    Except Error (List (Object α) × Nat) := do
  let source ← load heap this
  let c ← source.clone
  pure (heap ++ [c], heap.length)

/-- Heap form of a method call `this->m(...)` for a method `m` that writes
members of `*this` only. -/
def heap_call (heap : List (Object α)) (this : Nat) (m : Object α → Object α) :
    Except Error (List (Object α)) := do
  let o ← load heap this
  store heap this (m o)

/-- Directed edges of the faces, in winding order. -/
def spec_directed_edges (faces : List vec3i) : List (Int × Int) :=
  faces.flatMap fun f => [(f.x, f.y), (f.y, f.z), (f.z, f.x)]

/-- Closed and consistently wound: every directed edge occurs once, and so does
its reverse, so that each edge is used by exactly two faces, in opposite
directions. -/
def spec_closed_consistent (faces : List vec3i) : Bool :=
  (spec_directed_edges faces).all fun e =>
    (spec_directed_edges faces).count e == 1 &&
      (spec_directed_edges faces).count (e.2, e.1) == 1

/-- Every vertex index below `nv` is used by at least two faces. -/
def spec_vertices_shared (faces : List vec3i) (nv : Nat) : Bool :=
  (List.range nv).all fun v =>
    2 ≤ (faces.filter fun f => f.x == (v : Int) || f.y == (v : Int) || f.z == (v : Int)).length

end transform

/-- Exact square root on squares of rationals: the integer square roots of the
numerator and the denominator. -/
def rational_sqrt (q : ℚ) : ℚ := (Nat.sqrt q.num.toNat : ℚ) / (Nat.sqrt q.den : ℚ)

/-- A concrete `cmath` over the rationals, for evaluating the definitions: the
square root is exact on squares, and `cos`, `sin` are the rational
parametrisation of the unit circle by the half-angle tangent `t`, so that
`t = 0` is no rotation and `t = 1` a quarter turn. -/
def rational_cmath : cmath ℚ where
  sqrt := rational_sqrt
  cos := fun t => (1 - t * t) / (1 + t * t)
  sin := fun t => (2 * t) / (1 + t * t)

/-- Face table of a single triangle. -/
def triangle_faces : array_t Int := array_t.of_rows [[0, 1, 2]]

/-- Position table of the triangle `(0,0,0), (1,0,0), (0,1,0)`. -/
def triangle_vertices : array_t ℚ := array_t.of_rows [[0, 0, 0], [1, 0, 0], [0, 1, 0]]

/-- The object the constructor returns for the single triangle, white, unit scale. -/
def triangle_object : Object ℚ where
  faces := [⟨0, 1, 2⟩]
  vertices := [⟨0, 0, 0⟩, ⟨1, 0, 0⟩, ⟨0, 1, 0⟩]
  face_vertices := [⟨0, 0, 0⟩, ⟨1, 0, 0⟩, ⟨0, 1, 0⟩]
  face_normal_vectors := [⟨0, 0, 1⟩, ⟨0, 0, 1⟩, ⟨0, 0, 1⟩]
  face_vertex_normal_vectors := [⟨0, 0, 1⟩, ⟨0, 0, 1⟩, ⟨0, 0, 1⟩]
  num_faces := 1
  num_vertices := 3
  position := ⟨0, 0, 0⟩
  rotation_rad := ⟨0, 0, 0⟩
  color := ⟨1, 1, 1, 1⟩
  scale := ⟨1, 1, 1⟩
  model_matrix := ⟨⟨1, 0, 0, 0⟩, ⟨0, 1, 0, 0⟩, ⟨0, 0, 1, 0⟩, ⟨0, 0, 0, 1⟩⟩

/-- Face table of the doubly covered triangle: the same triangle once in each
winding. -/
def dihedron_faces : array_t Int := array_t.of_rows [[0, 1, 2], [0, 2, 1]]

/-- The object the constructor returns for the doubly covered triangle. -/
def dihedron_object : Object ℚ where
  faces := [⟨0, 1, 2⟩, ⟨0, 2, 1⟩]
  vertices := [⟨0, 0, 0⟩, ⟨1, 0, 0⟩, ⟨0, 1, 0⟩]
  face_vertices := [⟨0, 0, 0⟩, ⟨1, 0, 0⟩, ⟨0, 1, 0⟩, ⟨0, 0, 0⟩, ⟨0, 1, 0⟩, ⟨1, 0, 0⟩]
  face_normal_vectors :=
    [⟨0, 0, 1⟩, ⟨0, 0, 1⟩, ⟨0, 0, 1⟩, ⟨0, 0, -1⟩, ⟨0, 0, -1⟩, ⟨0, 0, -1⟩]
  face_vertex_normal_vectors :=
    [⟨0, 0, 0⟩, ⟨0, 0, 0⟩, ⟨0, 0, 0⟩, ⟨0, 0, 0⟩, ⟨0, 0, 0⟩, ⟨0, 0, 0⟩]
  num_faces := 2
  num_vertices := 3
  position := ⟨0, 0, 0⟩
  rotation_rad := ⟨0, 0, 0⟩
  color := ⟨1, 1, 1, 1⟩
  scale := ⟨1, 1, 1⟩
  model_matrix := ⟨⟨1, 0, 0, 0⟩, ⟨0, 1, 0, 0⟩, ⟨0, 0, 1, 0⟩, ⟨0, 0, 0, 1⟩⟩

/-- Face table of one face whose last index, 5, names no row of the
three-row position table. -/
def stray_faces : array_t Int := array_t.of_rows [[0, 1, 5]]

end three.scene

/-! ## Theorems -/

namespace three.scene

open glm

variable {α : Type} [Field α]

set_option linter.unusedSectionVars false

/-! ### Vectors and the rational instance -/

theorem normalize_unit_x (L : cmath α) (h : L.sqrt 1 = 1) :
    glm.normalize L (⟨1, 0, 0⟩ : vec3 α) = ⟨1, 0, 0⟩ := by
  simp [glm.normalize, inversesqrt, dot, vec3.smul, h]

theorem normalize_unit_y (L : cmath α) (h : L.sqrt 1 = 1) :
    glm.normalize L (⟨0, 1, 0⟩ : vec3 α) = ⟨0, 1, 0⟩ := by
  simp [glm.normalize, inversesqrt, dot, vec3.smul, h]

theorem normalize_unit_z (L : cmath α) (h : L.sqrt 1 = 1) :
    glm.normalize L (⟨0, 0, 1⟩ : vec3 α) = ⟨0, 0, 1⟩ := by
  simp [glm.normalize, inversesqrt, dot, vec3.smul, h]

theorem vec4_add_def (a b : vec4 α) :
    a + b = ⟨a.x + b.x, a.y + b.y, a.z + b.z, a.w + b.w⟩ := rfl

theorem vec3_add_def (a b : vec3 α) : a + b = ⟨a.x + b.x, a.y + b.y, a.z + b.z⟩ := rfl

theorem vec3_sub_def (a b : vec3 α) : a - b = ⟨a.x - b.x, a.y - b.y, a.z - b.z⟩ := rfl

theorem vec3_zero_def : (0 : vec3 α) = ⟨0, 0, 0⟩ := rfl

theorem rational_sqrt_one : rational_sqrt 1 = 1 := by
  norm_num [rational_sqrt]

theorem rational_sqrt_zero : rational_sqrt 0 = 0 := by
  norm_num [rational_sqrt]

/-! ### The glm transforms as matrix products -/

theorem toMatrix_identity : (mat4.identity : mat4 α).toMatrix = 1 := by
  ext i j
  fin_cases i <;> fin_cases j <;>
    simp [mat4.toMatrix, mat4.identity, Matrix.vecHead, Matrix.vecTail]

theorem toMatrix_translate (m : mat4 α) (v : vec3 α) :
    (glm.translate m v).toMatrix = m.toMatrix * spec_T v := by
  rw [← Matrix.ext_iff]
  simp [Fin.forall_fin_succ, Matrix.mul_apply, Fin.sum_univ_succ, mat4.toMatrix, glm.translate, spec_T,
      vec4.smul, vec4_add_def, Matrix.vecHead, Matrix.vecTail, add_assoc]

theorem toMatrix_scale (m : mat4 α) (v : vec3 α) :
    (glm.scale m v).toMatrix = m.toMatrix * spec_S v := by
  rw [← Matrix.ext_iff]
  simp [Fin.forall_fin_succ, Matrix.mul_apply, Fin.sum_univ_succ, mat4.toMatrix, glm.scale, spec_S,
      vec4.smul, Matrix.vecHead, Matrix.vecTail]
  
theorem toMatrix_rotate_x (L : cmath α) (h : L.sqrt 1 = 1) (m : mat4 α) (t : α) :
    (glm.rotate L m t ⟨1, 0, 0⟩).toMatrix = m.toMatrix * spec_Rx L t := by
  rw [← Matrix.ext_iff]
  simp [Fin.forall_fin_succ, Matrix.mul_apply, Fin.sum_univ_succ,  mat4.toMatrix, glm.rotate, spec_Rx, spec_Rx3,
      spec_homogeneous, vec4.smul, vec4_add_def, vec3.lsmul, normalize_unit_x L h, Matrix.vecHead, Matrix.vecTail]

theorem toMatrix_rotate_y (L : cmath α) (h : L.sqrt 1 = 1) (m : mat4 α) (t : α) :
    (glm.rotate L m t ⟨0, 1, 0⟩).toMatrix = m.toMatrix * spec_Ry L t := by
  rw [← Matrix.ext_iff]
  simp [Fin.forall_fin_succ, Matrix.mul_apply, Fin.sum_univ_succ,  mat4.toMatrix, glm.rotate, spec_Ry, spec_Ry3,
      spec_homogeneous, vec4.smul, vec4_add_def, vec3.lsmul, normalize_unit_y L h, Matrix.vecHead, Matrix.vecTail]

theorem toMatrix_rotate_z (L : cmath α) (h : L.sqrt 1 = 1) (m : mat4 α) (t : α) :
    (glm.rotate L m t ⟨0, 0, 1⟩).toMatrix = m.toMatrix * spec_Rz L t := by
  rw [← Matrix.ext_iff]
  simp [Fin.forall_fin_succ, Matrix.mul_apply, Fin.sum_univ_succ,  mat4.toMatrix, glm.rotate, spec_Rz, spec_Rz3,
      spec_homogeneous, vec4.smul, vec4_add_def, vec3.lsmul, normalize_unit_z L h, Matrix.vecHead, Matrix.vecTail]

/-- The matrix `_update_model_matrix` stores is the product `T · Rx · Ry · Rz · S`. -/
theorem update_model_matrix_entries (L : cmath α) (h : L.sqrt 1 = 1) (o : Object α) :
    (o._update_model_matrix L).model_matrix.toMatrix
      = spec_model_matrix L o.position o.rotation_rad o.scale := by
  simp only [Object._update_model_matrix, toMatrix_scale, toMatrix_rotate_x L h,
    toMatrix_rotate_y L h, toMatrix_rotate_z L h, toMatrix_translate, toMatrix_identity,
    spec_model_matrix, one_mul]

theorem spec_S_mulVec (s : vec3 α) (u : Fin 3 → α) :
    (spec_S s).mulVec ![u 0, u 1, u 2, 1] = ![s.x * u 0, s.y * u 1, s.z * u 2, 1] := by
  funext i
  fin_cases i <;>
    simp [Matrix.mulVec, Matrix.dotProduct, Fin.sum_univ_succ, spec_S, Matrix.vecHead,
      Matrix.vecTail]

theorem spec_homogeneous_mulVec (r : Matrix (Fin 3) (Fin 3) α) (u : Fin 3 → α) :
    (spec_homogeneous r).mulVec ![u 0, u 1, u 2, 1]
      = ![r.mulVec u 0, r.mulVec u 1, r.mulVec u 2, 1] := by
  funext i
  fin_cases i <;>
    simp [Matrix.mulVec, Matrix.dotProduct, Fin.sum_univ_succ, spec_homogeneous, Matrix.vecHead,
      Matrix.vecTail, add_assoc]

theorem spec_T_mulVec (p : vec3 α) (u : Fin 3 → α) :
    (spec_T p).mulVec ![u 0, u 1, u 2, 1] = ![p.x + u 0, p.y + u 1, p.z + u 2, 1] := by
  funext i
  fin_cases i <;>
    simp [Matrix.mulVec, Matrix.dotProduct, Fin.sum_univ_succ, spec_T, Matrix.vecHead,
      Matrix.vecTail, add_comm]

/-- The composed matrix sends a local point `v` to `p + Rx · Ry · Rz · (s ⊙ v)`. -/
theorem spec_model_matrix_mulVec (L : cmath α) (p r s v : vec3 α) :
    (spec_model_matrix L p r s).mulVec ![v.x, v.y, v.z, 1]
      = ![p.x + (spec_Rx3 L r.x * spec_Ry3 L r.y * spec_Rz3 L r.z).mulVec
              ![s.x * v.x, s.y * v.y, s.z * v.z] 0,
          p.y + (spec_Rx3 L r.x * spec_Ry3 L r.y * spec_Rz3 L r.z).mulVec
              ![s.x * v.x, s.y * v.y, s.z * v.z] 1,
          p.z + (spec_Rx3 L r.x * spec_Ry3 L r.y * spec_Rz3 L r.z).mulVec
              ![s.x * v.x, s.y * v.y, s.z * v.z] 2,
          1] := by
  have hS := spec_S_mulVec s ![v.x, v.y, v.z]
  simp only [Matrix.cons_val_zero, Matrix.cons_val_one, Matrix.head_cons, Matrix.cons_val_two,
    Matrix.tail_cons] at hS
  have hz := spec_homogeneous_mulVec (spec_Rz3 L r.z) ![s.x * v.x, s.y * v.y, s.z * v.z]
  simp only [Matrix.cons_val_zero, Matrix.cons_val_one, Matrix.head_cons, Matrix.cons_val_two,
    Matrix.tail_cons] at hz
  simp only [spec_model_matrix, spec_Rx, spec_Ry, spec_Rz, ← Matrix.mulVec_mulVec, hS, hz,
    spec_homogeneous_mulVec, spec_T_mulVec]

/-! ### Loops and checked accesses -/

theorem except_bind_eq_ok {ε β γ : Type} (x : Except ε β) (f : β → Except ε γ) (c : γ) :
    (x >>= f) = .ok c ↔ ∃ a, x = .ok a ∧ f a = .ok c := by
  cases x with
  | error e => simp [bind, Except.bind]
  | ok a => simp [bind, Except.bind]

theorem for_range_zero {σ : Type} (body : Nat → σ → Except Error σ) (s : σ) :
    for_range 0 body s = .ok s := rfl

theorem for_range_succ {σ : Type} (n : Nat) (body : Nat → σ → Except Error σ) (s : σ) :
    for_range (n + 1) body s = (for_range n body s >>= body n) := by
  simp [for_range, List.range_succ, List.foldlM_append]

/-- Loop rule: an invariant that every iteration re-establishes, while succeeding,
holds after the loop, which succeeds. -/
theorem for_range_total {σ : Type} (P : Nat → σ → Prop) (n : Nat)
    (body : Nat → σ → Except Error σ) (s : σ) (h0 : P 0 s)
    (hstep : ∀ i t, i < n → P i t → ∃ t', body i t = .ok t' ∧ P (i + 1) t') :
    ∃ s', for_range n body s = .ok s' ∧ P n s' := by
  induction n with
  | zero => exact ⟨s, rfl, h0⟩
  | succ k ih =>
    obtain ⟨t, ht, hP⟩ := ih (fun i t hi => hstep i t (Nat.lt_succ_of_lt hi))
    obtain ⟨t', ht', hP'⟩ := hstep k t (Nat.lt_succ_self k) hP
    exact ⟨t', by rw [for_range_succ, ht]; exact ht', hP'⟩

/-- Loop rule: when the loop succeeds, every iteration succeeded from some state. -/
theorem for_range_ok_steps {σ : Type} (n : Nat) (body : Nat → σ → Except Error σ) (s s' : σ)
    (h : for_range n body s = .ok s') : ∀ i, i < n → ∃ t t', body i t = .ok t' := by
  induction n generalizing s' with
  | zero => intro i hi; omega
  | succ k ih =>
    rw [for_range_succ, except_bind_eq_ok] at h
    obtain ⟨t, ht, hb⟩ := h
    intro i hi
    rcases Nat.lt_succ_iff_lt_or_eq.mp hi with hlt | rfl
    · exact ih t ht i hlt
    · exact ⟨t, s', hb⟩

theorem load_ok_iff {β : Type} (buf : List β) (i : Int) (v : β) :
    load buf i = .ok v ↔ 0 ≤ i ∧ buf[i.toNat]? = some v := by
  unfold load
  by_cases h : 0 ≤ i
  · cases hb : buf[i.toNat]? <;> simp [h]
  · simp [h]

theorem store_ok_iff {β : Type} (buf : List β) (i : Int) (v : β) (b : List β) :
    store buf i v = .ok b ↔ (0 ≤ i ∧ i.toNat < buf.length) ∧ b = buf.set i.toNat v := by
  unfold store
  by_cases h : 0 ≤ i ∧ i.toNat < buf.length
  · simp [h, eq_comm]
  · simp [h]

theorem load_of_getElem? {β : Type} (buf : List β) (i : Int) (v : β) (hi : 0 ≤ i)
    (h : buf[i.toNat]? = some v) : load buf i = .ok v :=
  (load_ok_iff buf i v).mpr ⟨hi, h⟩

theorem store_of_lt {β : Type} (buf : List β) (i : Int) (v : β) (hi : 0 ≤ i)
    (h : i.toNat < buf.length) : store buf i v = .ok (buf.set i.toNat v) :=
  (store_ok_iff buf i v _).mpr ⟨⟨hi, h⟩, rfl⟩

/-- A loop that writes `g i` at index `i` fills the buffer with `g`. -/
theorem fill_total {β : Type} (g : Nat → β) (n : Nat) (buf : List β) (h : buf.length = n) :
    ∃ b, for_range n (fun i b => store b (i : Int) (g i)) buf = .ok b ∧
      b.length = n ∧ ∀ j, j < n → b[j]? = some (g j) := by
  obtain ⟨b, hb, hlen, hP⟩ := for_range_total
    (fun i (b : List β) => b.length = n ∧ ∀ j, j < i → b[j]? = some (g j)) n
    (fun i b => store b (i : Int) (g i)) buf ⟨h, fun j hj => by omega⟩
    (by
      intro i t hi ⟨hlen, hP⟩
      refine ⟨t.set i (g i), ?_, by simp [hlen], ?_⟩
      · simpa using store_of_lt t (i : Int) (g i) (by omega) (by simp; omega)
      · intro j hj
        rw [List.getElem?_set]
        by_cases hij : i = j
        · subst hij; simp [hlen, hi]
        · simp [hij]; exact hP j (by omega))
  exact ⟨b, hb, hlen, hP⟩

theorem int_mul_ok (a b : Nat) (h : a * b ≤ INT_MAX) : int_mul a b = .ok (a * b) := by
  unfold int_mul
  rw [if_pos h]

theorem int_mul_ok_iff (a b r : Nat) :
    int_mul a b = .ok r ↔ a * b ≤ INT_MAX ∧ r = a * b := by
  unfold int_mul
  by_cases h : a * b ≤ INT_MAX
  · simp [h, eq_comm]
  · simp [h]

theorem getElem?_position_of (vertices : List (vec3 α)) (i : Int)
    (h : i.toNat < vertices.length) : vertices[i.toNat]? = some (position_of vertices i) := by
  simp [position_of, List.getD, List.getElem?_eq_getElem h]

theorem getElem?_face_of (faces : List vec3i) (g : Nat) (h : g < faces.length) :
    faces[g]? = some (face_of faces g) := by
  simp [face_of, List.getD, List.getElem?_eq_getElem h]

/-- All three indices of a face lie in `[0, n)`. -/
theorem face_in_range_iff (face : vec3i) (n : Nat) :
    (∀ k : Fin 3, 0 ≤ face.get k ∧ (face.get k).toNat < n) ↔
      (0 ≤ face.x ∧ face.x.toNat < n) ∧ (0 ≤ face.y ∧ face.y.toNat < n) ∧
        (0 ≤ face.z ∧ face.z.toNat < n) := by
  constructor
  · intro h
    exact ⟨h 0, h 1, h 2⟩
  · rintro ⟨h0, h1, h2⟩ k
    fin_cases k
    · exact h0
    · exact h1
    · exact h2

/-- One `+=` on the accumulator, described entry by entry. -/
theorem add_at_total (vn : List (vec3 α)) (i : Int) (N : vec3 α) (a : Nat → vec3 α)
    (hi : 0 ≤ i) (hlt : i.toNat < vn.length)
    (ha : ∀ v, v < vn.length → vn[v]? = some (a v)) :
    ∃ vn', add_at vn i N = .ok vn' ∧ vn'.length = vn.length ∧
      ∀ v, v < vn.length → vn'[v]? = some (a v + if i = (v : Int) then N else 0) := by
  refine ⟨vn.set i.toNat (a i.toNat + N), ?_, by simp, ?_⟩
  · unfold add_at
    rw [load_of_getElem? vn i _ hi (ha _ hlt)]
    exact store_of_lt vn i _ hi hlt
  · intro v hv
    rw [List.getElem?_set]
    by_cases hiv : i.toNat = v
    · have : i = (v : Int) := by omega
      subst hiv
      rw [if_pos rfl, if_pos hlt, if_pos this]
    · have : i ≠ (v : Int) := by omega
      simp [hiv, this, ha v hv]

theorem except_ok_bind {ε β γ : Type} (a : β) (f : β → Except ε γ) :
    (Except.ok a >>= f) = f a := rfl

theorem store_at_nat {β : Type} (buf : List β) (m : Int) (j : Nat) (v : β) (hm : m = (j : Int))
    (hj : j < buf.length) : store buf m v = .ok (buf.set j v) := by
  subst hm
  simpa using store_of_lt buf (j : Int) v (by omega) (by simpa using hj)

/-- Three consecutive writes at `i * 3 + 0 .. 2`, described entry by entry. -/
theorem store3_total {β : Type} (buf : List β) (n i : Nat) (a : Fin 3 → β)
    (hlen : buf.length = n * 3) (hi : i < n) :
    ∃ b1 b2 b3, store buf ((i : Int) * 3 + 0) (a 0) = .ok b1 ∧
      store b1 ((i : Int) * 3 + 1) (a 1) = .ok b2 ∧
      store b2 ((i : Int) * 3 + 2) (a 2) = .ok b3 ∧
      b3.length = n * 3 ∧ (∀ k : Fin 3, b3[i * 3 + k.val]? = some (a k)) ∧
      ∀ j, (j < i * 3 ∨ i * 3 + 3 ≤ j) → b3[j]? = buf[j]? := by
  refine ⟨buf.set (i * 3 + 0) (a 0), (buf.set (i * 3 + 0) (a 0)).set (i * 3 + 1) (a 1),
    ((buf.set (i * 3 + 0) (a 0)).set (i * 3 + 1) (a 1)).set (i * 3 + 2) (a 2),
    store_at_nat _ _ _ _ (by push_cast; ring) (by omega),
    store_at_nat _ _ _ _ (by push_cast; ring) (by simp; omega),
    store_at_nat _ _ _ _ (by push_cast; ring) (by simp; omega), by simp [hlen], ?_, ?_⟩
  · intro k
    fin_cases k <;> simp [List.getElem?_set, hlen] <;> omega
  · intro j hj
    simp only [List.getElem?_set]
    rw [if_neg (by omega), if_neg (by omega), if_neg (by omega)]

/-! ### The face loop -/

theorem spec_accumulated_succ (L : cmath α) (faces : List vec3i) (vertices : List (vec3 α))
    (n : Nat) (v : Int) :
    spec_accumulated L faces vertices (n + 1) v
      = spec_accumulated L faces vertices n v
        + (if (face_of faces n).x = v then spec_flat_normal L faces vertices n else 0)
        + (if (face_of faces n).y = v then spec_flat_normal L faces vertices n else 0)
        + (if (face_of faces n).z = v then spec_flat_normal L faces vertices n else 0) := by
  simp only [spec_accumulated, Finset.sum_range_succ, Fin.sum_univ_three, add_assoc]
  rfl

/-- One iteration of the face loop succeeds on in-range indices and
re-establishes the invariant. -/
theorem face_step_total (L : cmath α) (faces : List vec3i) (vertices : List (vec3 α))
    (nf nv : Nat) (hf : faces.length = nf) (hv : vertices.length = nv)
    (hr : ∀ g, g < nf → ∀ k : Fin 3,
      0 ≤ (face_of faces g).get k ∧ ((face_of faces g).get k).toNat < nv)
    (i : Nat) (st : List (vec3 α) × List (vec3 α) × List (vec3 α)) (hi : i < nf)
    (hP : face_pass_inv L faces vertices nf nv i st) :
    ∃ st', face_step L faces vertices i st = .ok st' ∧
      face_pass_inv L faces vertices nf nv (i + 1) st' := by
  obtain ⟨h1, h2, h3, h4, h5⟩ := hP
  obtain ⟨hx, hy, hz⟩ := (face_in_range_iff (face_of faces i) nv).mp (hr i hi)
  have hl0 : load faces (i : Int) = .ok (face_of faces i) :=
    load_of_getElem? _ _ _ (by omega) (by simpa using getElem?_face_of faces i (by omega))
  have hlx := load_of_getElem? vertices _ _ hx.1 (getElem?_position_of vertices _ (by omega))
  have hly := load_of_getElem? vertices _ _ hy.1 (getElem?_position_of vertices _ (by omega))
  have hlz := load_of_getElem? vertices _ _ hz.1 (getElem?_position_of vertices _ (by omega))
  obtain ⟨a1, a2, a3, ha1, ha2, ha3, halen, haw, hao⟩ := store3_total st.1 nf i
    (fun k => position_of vertices ((face_of faces i).get k)) h1 hi
  obtain ⟨b1, b2, b3, hb1, hb2, hb3, hblen, hbw, hbo⟩ := store3_total st.2.1 nf i
    (fun _ => spec_flat_normal L faces vertices i) h2 hi
  obtain ⟨c1, hc1, hc1len, hc1v⟩ := add_at_total st.2.2 (face_of faces i).x
    (spec_flat_normal L faces vertices i) _ hx.1 (by omega) (fun v hv => h5 v (by omega))
  obtain ⟨c2, hc2, hc2len, hc2v⟩ := add_at_total c1 (face_of faces i).y
    (spec_flat_normal L faces vertices i) _ hy.1 (by omega) (fun v hv => hc1v v (by omega))
  obtain ⟨c3, hc3, hc3len, hc3v⟩ := add_at_total c2 (face_of faces i).z
    (spec_flat_normal L faces vertices i) _ hz.1 (by omega) (fun v hv => hc2v v (by omega))
  refine ⟨(a3, b3, c3), ?_, halen, hblen, by show c3.length = nv; omega, ?_, ?_⟩
  · simp only [vec3.get] at ha1 ha2 ha3
    simp only [face_step, hl0, hlx, hly, hlz, except_ok_bind, spec_flat_normal] at *
    simp only [ha1, ha2, ha3, hb1, hb2, hb3, hc1, hc2, hc3, except_ok_bind]
    rfl
  · intro g hg k
    rcases Nat.lt_succ_iff_lt_or_eq.mp hg with hlt | rfl
    · have hk := k.isLt
      rw [hao _ (by omega), hbo _ (by omega)]
      exact h4 g hlt k
    · exact ⟨haw k, hbw k⟩
  · intro v hv
    rw [hc3v v (by omega), spec_accumulated_succ]

theorem lt_length_of_getElem? {β : Type} (buf : List β) (j : Nat) (v : β)
    (h : buf[j]? = some v) : j < buf.length := by
  by_contra hn
  rw [List.getElem?_eq_none (by omega)] at h
  exact Option.noConfusion h

theorem face_of_eq_of_getElem? (faces : List vec3i) (g : Nat) (face : vec3i)
    (h : faces[g]? = some face) : face_of faces g = face := by
  have hlt := lt_length_of_getElem? faces g face h
  rw [getElem?_face_of faces g hlt] at h
  exact Option.some.inj h

/-- An iteration of the face loop that succeeds read three in-range indices. -/
theorem face_step_ok_in_range (L : cmath α) (faces : List vec3i) (vertices : List (vec3 α))
    (i : Nat) (st st' : List (vec3 α) × List (vec3 α) × List (vec3 α))
    (h : face_step L faces vertices i st = .ok st') :
    ∀ k : Fin 3, 0 ≤ (face_of faces i).get k ∧ ((face_of faces i).get k).toNat < vertices.length := by
  unfold face_step at h
  rw [except_bind_eq_ok] at h
  obtain ⟨face, hface, h⟩ := h
  rw [except_bind_eq_ok] at h
  obtain ⟨va, hva, h⟩ := h
  rw [except_bind_eq_ok] at h
  obtain ⟨vb, hvb, h⟩ := h
  rw [except_bind_eq_ok] at h
  obtain ⟨vc, hvc, _⟩ := h
  rw [load_ok_iff] at hface hva hvb hvc
  have hfo : face_of faces i = face := face_of_eq_of_getElem? faces i face (by simpa using hface.2)
  rw [hfo]
  exact (face_in_range_iff face vertices.length).mpr
    ⟨⟨hva.1, lt_length_of_getElem? _ _ _ hva.2⟩, ⟨hvb.1, lt_length_of_getElem? _ _ _ hvb.2⟩,
      ⟨hvc.1, lt_length_of_getElem? _ _ _ hvc.2⟩⟩

/-- The face loop succeeds on in-range indices and ends in the invariant. -/
theorem face_pass_total (L : cmath α) (faces : List vec3i) (vertices : List (vec3 α))
    (nf nv : Nat) (hf : faces.length = nf) (hv : vertices.length = nv)
    (hr : ∀ g, g < nf → ∀ k : Fin 3,
      0 ≤ (face_of faces g).get k ∧ ((face_of faces g).get k).toNat < nv)
    (st : List (vec3 α) × List (vec3 α) × List (vec3 α))
    (h0 : face_pass_inv L faces vertices nf nv 0 st) :
    ∃ st', for_range nf (face_step L faces vertices) st = .ok st' ∧
      face_pass_inv L faces vertices nf nv nf st' :=
  for_range_total (face_pass_inv L faces vertices nf nv) nf _ st h0
    (fun i t hi hP => face_step_total L faces vertices nf nv hf hv hr i t hi hP)

/-- A loop that replaces each entry `buf[i]` by `h buf[i]`. -/
theorem map_loop_total {β : Type} (h : β → β) (n : Nat) (buf : List β) (a : Nat → β)
    (hlen : buf.length = n) (ha : ∀ j, j < n → buf[j]? = some (a j)) :
    ∃ b, for_range n (fun i b => load b (i : Int) >>= fun x => store b (i : Int) (h x)) buf
        = .ok b ∧ b.length = n ∧ ∀ j, j < n → b[j]? = some (h (a j)) := by
  obtain ⟨b, hb, hlen', hP⟩ := for_range_total
    (fun i (b : List β) => b.length = n ∧
      ∀ j, j < n → b[j]? = some (if j < i then h (a j) else a j)) n
    (fun i b => load b (i : Int) >>= fun x => store b (i : Int) (h x)) buf
    ⟨hlen, fun j hj => by simpa using ha j hj⟩
    (by
      intro i t hi ⟨hl, hP⟩
      refine ⟨t.set i (h (a i)), ?_, by simp [hl], ?_⟩
      · have h1 : load t (i : Int) = .ok (a i) :=
          load_of_getElem? _ _ _ (by omega) (by simpa using hP i hi)
        show (load t (i : Int) >>= fun x => store t (i : Int) (h x)) = _
        rw [h1, except_ok_bind]
        exact store_at_nat _ _ _ _ rfl (by omega)
      · intro j hj
        rw [List.getElem?_set]
        by_cases hij : i = j
        · subst hij; simp [hl, hi]
        · rw [if_neg hij, hP j hj]
          by_cases hji : j < i
          · rw [if_pos hji, if_pos (by omega)]
          · rw [if_neg hji, if_neg (by omega)])
  refine ⟨b, hb, hlen', fun j hj => ?_⟩
  rw [hP j hj, if_pos hj]

/-- The vertex-copy loop fills `_vertices` and leaves the accumulators zero. -/
theorem copy_vertex_total (np_vertices : array_t α) (n : Nat) :
    ∃ st, for_range n (copy_vertex_step np_vertices)
        (List.replicate n (0 : vec3 α), List.replicate n (0 : vec3 α)) = .ok st ∧
      st.1.length = n ∧ st.2.length = n ∧
      (∀ j, j < n → st.1[j]? = some (np_vertices.row j)) ∧
      ∀ j, j < n → st.2[j]? = some (0 : vec3 α) := by
  obtain ⟨st, hst, h1, h2, h3, h4⟩ := for_range_total
    (fun i (st : List (vec3 α) × List (vec3 α)) => st.1.length = n ∧ st.2.length = n ∧
      (∀ j, j < i → st.1[j]? = some (np_vertices.row j)) ∧
      ∀ j, j < n → st.2[j]? = some (0 : vec3 α)) n
    (copy_vertex_step np_vertices) (List.replicate n 0, List.replicate n 0)
    ⟨by simp, by simp, fun j hj => by omega, fun j hj => by simp [List.getElem?_replicate, hj]⟩
    (by
      intro i t hi ⟨h1, h2, h3, h4⟩
      refine ⟨(t.1.set i (np_vertices.row i), t.2.set i (vec3.splat 0)), ?_, by simp [h1],
        by simp [h2], ?_, ?_⟩
      · unfold copy_vertex_step
        rw [store_at_nat t.1 _ i _ rfl (by omega), except_ok_bind,
          store_at_nat t.2 _ i _ rfl (by omega), except_ok_bind]
        rfl
      · intro j hj
        show (t.1.set i (np_vertices.row i))[j]? = _
        rw [List.getElem?_set]
        by_cases hij : i = j
        · subst hij; simp [h1, hi]
        · rw [if_neg hij]; exact h3 j (by omega)
      · intro j hj
        show (t.2.set i (vec3.splat 0))[j]? = _
        rw [List.getElem?_set]
        by_cases hij : i = j
        · subst hij; simp [h2, hi]; rfl
        · rw [if_neg hij]; exact h4 j hj)
  exact ⟨st, hst, h1, h2, h3, h4⟩

/-- One iteration of the expansion loop. -/
theorem expand_step_total (faces : List vec3i) (vn : List (vec3 α)) (nf nv : Nat)
    (hf : faces.length = nf) (hv : vn.length = nv)
    (hr : ∀ g, g < nf → ∀ k : Fin 3,
      0 ≤ (face_of faces g).get k ∧ ((face_of faces g).get k).toNat < nv)
    (i : Nat) (buf : List (vec3 α)) (hi : i < nf) (hlen : buf.length = nf * 3) :
    ∃ b, expand_step faces vn i buf = .ok b ∧ b.length = nf * 3 ∧
      (∀ k : Fin 3, b[i * 3 + k.val]? = some (position_of vn ((face_of faces i).get k))) ∧
      ∀ j, (j < i * 3 ∨ i * 3 + 3 ≤ j) → b[j]? = buf[j]? := by
  obtain ⟨hx, hy, hz⟩ := (face_in_range_iff (face_of faces i) nv).mp (hr i hi)
  have hl0 : load faces (i : Int) = .ok (face_of faces i) :=
    load_of_getElem? _ _ _ (by omega) (by simpa using getElem?_face_of faces i (by omega))
  have hlx := load_of_getElem? vn _ _ hx.1 (getElem?_position_of vn _ (by omega))
  have hly := load_of_getElem? vn _ _ hy.1 (getElem?_position_of vn _ (by omega))
  have hlz := load_of_getElem? vn _ _ hz.1 (getElem?_position_of vn _ (by omega))
  obtain ⟨a1, a2, a3, ha1, ha2, ha3, halen, haw, hao⟩ := store3_total buf nf i
    (fun k => position_of vn ((face_of faces i).get k)) hlen hi
  refine ⟨a3, ?_, halen, haw, hao⟩
  simp only [vec3.get] at ha1 ha2 ha3
  simp only [expand_step, hl0, hlx, hly, hlz, except_ok_bind, ha1, ha2, ha3]

/-- The expansion loop writes the looked-up normal of every slot of every face. -/
theorem expand_pass_total (faces : List vec3i) (vn : List (vec3 α)) (nf nv : Nat)
    (hf : faces.length = nf) (hv : vn.length = nv)
    (hr : ∀ g, g < nf → ∀ k : Fin 3,
      0 ≤ (face_of faces g).get k ∧ ((face_of faces g).get k).toNat < nv)
    (buf : List (vec3 α)) (hlen : buf.length = nf * 3) :
    ∃ b, for_range nf (expand_step faces vn) buf = .ok b ∧ b.length = nf * 3 ∧
      ∀ g, g < nf → ∀ k : Fin 3,
        b[g * 3 + k.val]? = some (position_of vn ((face_of faces g).get k)) :=
  for_range_total
    (fun i (b : List (vec3 α)) => b.length = nf * 3 ∧ ∀ g, g < i → ∀ k : Fin 3,
        b[g * 3 + k.val]? = some (position_of vn ((face_of faces g).get k))) nf _ buf
    ⟨hlen, fun g hg => by omega⟩
    (by
      intro i t hi ⟨hl, hP⟩
      obtain ⟨b, hb, hbl, hbw, hbo⟩ := expand_step_total faces vn nf nv hf hv hr i t hi hl
      refine ⟨b, hb, hbl, ?_⟩
      intro g hg k
      rcases Nat.lt_succ_iff_lt_or_eq.mp hg with hlt | rfl
      · have hk := k.isLt
        rw [hbo _ (by omega)]
        exact hP g hlt k
      · exact hbw k)

/-! ### The constructor -/

theorem validate_ok_iff (np_faces : array_t Int) (np_vertices : array_t α) :
    validate np_faces np_vertices = .ok () ↔
      np_faces.ndim = 2 ∧ np_vertices.ndim = 2 ∧ np_faces.shape_at 1 = 3 ∧
        np_vertices.shape_at 1 = 3 := by
  unfold validate
  by_cases h1 : np_faces.ndim = 2 <;> by_cases h2 : np_vertices.ndim = 2 <;>
    by_cases h3 : np_faces.shape_at 1 = 3 <;> by_cases h4 : np_vertices.shape_at 1 = 3 <;>
    simp [h1, h2, h3, h4]

theorem validate_ok (np_faces : array_t Int) (np_vertices : array_t α)
    (h1 : np_faces.ndim = 2) (h2 : np_vertices.ndim = 2) (h3 : np_faces.shape_at 1 = 3)
    (h4 : np_vertices.shape_at 1 = 3) : validate np_faces np_vertices = .ok () :=
  (validate_ok_iff np_faces np_vertices).mpr ⟨h1, h2, h3, h4⟩

theorem position_of_eq_of_getElem? (buf : List (vec3 α)) (i : Int) (v : vec3 α)
    (h : buf[i.toNat]? = some v) : position_of buf i = v := by
  simp [position_of, List.getD, h]

/-- On tables that pass validation, whose face indices are in range and whose
row count tripled is a value of `int`, the constructor returns an object, and
the object is as `built_from` describes. -/
theorem new_total (L : cmath α) (np_faces : array_t Int) (np_vertices : array_t α)
    (color : vec4 α) (scale : vec3 α)
    (h1 : np_faces.ndim = 2) (h2 : np_vertices.ndim = 2) (h3 : np_faces.shape_at 1 = 3)
    (h4 : np_vertices.shape_at 1 = 3)
    (hr : ∀ f, f < np_faces.shape_at 0 → row_in_range np_faces (np_vertices.shape_at 0) f)
    (hsz : np_faces.shape_at 0 * 3 ≤ INT_MAX) :
    ∃ o, Object.new L np_faces np_vertices color scale = .ok o ∧
      built_from L np_faces np_vertices color scale o := by
  obtain ⟨faces, hfaces, hfl, hfrow⟩ := fill_total np_faces.row (np_faces.shape_at 0)
    (List.replicate (np_faces.shape_at 0) (⟨0, 0, 0⟩ : vec3i)) (by simp)
  obtain ⟨vs, hvs, hvl1, hvl2, hvrow, hvzero⟩ :=
    copy_vertex_total np_vertices (np_vertices.shape_at 0)
  have hfo : ∀ g, g < np_faces.shape_at 0 → face_of faces g = np_faces.row g :=
    fun g hg => face_of_eq_of_getElem? faces g _ (hfrow g hg)
  have hr' : ∀ g, g < np_faces.shape_at 0 → ∀ k : Fin 3,
      0 ≤ (face_of faces g).get k ∧ ((face_of faces g).get k).toNat < np_vertices.shape_at 0 := by
    intro g hg k
    rw [hfo g hg]
    exact hr g hg k
  obtain ⟨fs, hfs, hfs1, hfs2, hfs3, hfs4, hfs5⟩ := face_pass_total L faces vs.1
    (np_faces.shape_at 0) (np_vertices.shape_at 0) hfl hvl1 hr'
    (List.replicate (np_faces.shape_at 0 * 3) 0, List.replicate (np_faces.shape_at 0 * 3) 0, vs.2)
    ⟨by simp, by simp, hvl2, fun g hg => by omega, fun v hv => by
      rw [hvzero v hv]; simp [spec_accumulated]⟩
  obtain ⟨vn, hvn, hvnl, hvnat⟩ := map_loop_total (glm.normalize L) (np_vertices.shape_at 0)
    fs.2.2 (fun j => spec_accumulated L faces vs.1 (np_faces.shape_at 0) (j : Int)) hfs3 hfs5
  obtain ⟨fvn, hfvn, hfvnl, hfvnat⟩ := expand_pass_total faces vn (np_faces.shape_at 0)
    (np_vertices.shape_at 0) hfl hvnl hr'
    (List.replicate (np_faces.shape_at 0 * 3) 0) (by simp)
  refine ⟨Object._update_model_matrix L (Object.set_scale L (Object.set_color
    { faces := faces
      vertices := vs.1
      face_vertices := fs.1
      face_normal_vectors := fs.2.1
      face_vertex_normal_vectors := fvn
      num_faces := np_faces.shape_at 0
      num_vertices := np_vertices.shape_at 0
      position := vec3.splat 0
      rotation_rad := vec3.splat 0
      color := ⟨0, 0, 0, 0⟩
      scale := vec3.splat 0
      model_matrix := mat4.identity } color) scale), ?_, ?_⟩
  · unfold Object.new
    rw [validate_ok np_faces np_vertices h1 h2 h3 h4]
    simp only [except_ok_bind, int_mul_ok (np_faces.shape_at 0) 3 hsz]
    have e1 : copy_face_step np_faces
        = fun (i : Nat) b => store b (i : Int) (np_faces.row i) := rfl
    have e2 : normalize_step L
        = fun (i : Nat) (b : List (vec3 α)) => load b (i : Int) >>= fun x =>
            store b (i : Int) (glm.normalize L x) := rfl
    rw [e1, hfaces]
    simp only [except_ok_bind]
    rw [hvs]
    simp only [except_ok_bind]
    rw [hfs]
    simp only [except_ok_bind]
    rw [e2, hvn]
    simp only [except_ok_bind]
    rw [hfvn]
    simp only [except_ok_bind]
    rfl
  · refine
      { num_faces_eq := rfl
        num_vertices_eq := rfl
        derived_size_in_int := hsz
        faces_length := hfl
        vertices_length := hvl1
        face_vertices_length := hfs1
        face_normal_vectors_length := hfs2
        face_vertex_normal_vectors_length := hfvnl
        faces_row := hfrow
        vertices_row := hvrow
        in_range := hr
        face_vertices_at := fun f hf k => (hfs4 f hf k).1
        face_normal_vectors_at := fun f hf k => (hfs4 f hf k).2
        face_vertex_normal_vectors_at := ?_
        position_eq := rfl
        rotation_rad_eq := rfl
        color_eq := rfl
        scale_eq := rfl
        model_matrix_eq := rfl }
    intro f hf k
    show fvn[f * 3 + k.val]? = _
    rw [hfvnat f hf k]
    have hk := hr' f hf k
    have := hvnat ((face_of faces f).get k).toNat hk.2
    rw [position_of_eq_of_getElem? vn _ _ this]
    have hcast : ((((face_of faces f).get k).toNat : Nat) : Int) = (face_of faces f).get k := by
      omega
    rw [hcast]
    rfl

theorem new_ok_validate (L : cmath α) (np_faces : array_t Int) (np_vertices : array_t α)
    (color : vec4 α) (scale : vec3 α) (o : Object α)
    (h : Object.new L np_faces np_vertices color scale = .ok o) :
    validate np_faces np_vertices = .ok () := by
  unfold Object.new at h
  rw [except_bind_eq_ok] at h
  obtain ⟨_, hu, _⟩ := h
  exact hu

/-- A constructor call that returns an object computed `_num_faces * 3` within
`int`. -/
theorem new_ok_size (L : cmath α) (np_faces : array_t Int) (np_vertices : array_t α)
    (color : vec4 α) (scale : vec3 α) (o : Object α)
    (h : Object.new L np_faces np_vertices color scale = .ok o) :
    np_faces.shape_at 0 * 3 ≤ INT_MAX := by
  unfold Object.new at h
  rw [except_bind_eq_ok] at h
  obtain ⟨_, _, h⟩ := h
  rw [except_bind_eq_ok] at h
  obtain ⟨r, hr, _⟩ := h
  exact ((int_mul_ok_iff _ _ r).mp hr).1

/-- A constructor call that returns an object was given in-range face indices. -/
theorem new_ok_in_range (L : cmath α) (np_faces : array_t Int) (np_vertices : array_t α)
    (color : vec4 α) (scale : vec3 α) (o : Object α)
    (h : Object.new L np_faces np_vertices color scale = .ok o) :
    ∀ f, f < np_faces.shape_at 0 → row_in_range np_faces (np_vertices.shape_at 0) f := by
  obtain ⟨faces, hfaces, hfl, hfrow⟩ := fill_total np_faces.row (np_faces.shape_at 0)
    (List.replicate (np_faces.shape_at 0) (⟨0, 0, 0⟩ : vec3i)) (by simp)
  obtain ⟨vs, hvs, hvl1, hvl2, hvrow, hvzero⟩ :=
    copy_vertex_total np_vertices (np_vertices.shape_at 0)
  have e1 : copy_face_step np_faces
      = fun (i : Nat) b => store b (i : Int) (np_faces.row i) := rfl
  have hsz := new_ok_size L np_faces np_vertices color scale o h
  unfold Object.new at h
  rw [except_bind_eq_ok] at h
  obtain ⟨_, _, h⟩ := h
  simp only [int_mul_ok (np_faces.shape_at 0) 3 hsz, e1, hfaces, hvs, except_ok_bind] at h
  rw [except_bind_eq_ok] at h
  obtain ⟨fs, hfs, _⟩ := h
  intro f hf k
  obtain ⟨t, t', ht⟩ := for_range_ok_steps _ _ _ _ hfs f hf
  have := face_step_ok_in_range L faces vs.1 f t t' ht k
  rw [face_of_eq_of_getElem? faces f _ (hfrow f hf), hvl1] at this
  exact this

/-- Whatever object the constructor returns is as `built_from` describes. -/
theorem new_ok_built (L : cmath α) (np_faces : array_t Int) (np_vertices : array_t α)
    (color : vec4 α) (scale : vec3 α) (o : Object α)
    (h : Object.new L np_faces np_vertices color scale = .ok o) :
    built_from L np_faces np_vertices color scale o := by
  obtain ⟨h1, h2, h3, h4⟩ := (validate_ok_iff np_faces np_vertices).mp
    (new_ok_validate L np_faces np_vertices color scale o h)
  obtain ⟨o', ho', hb⟩ := new_total L np_faces np_vertices color scale h1 h2 h3 h4
    (new_ok_in_range L np_faces np_vertices color scale o h)
    (new_ok_size L np_faces np_vertices color scale o h)
  rw [h] at ho'
  cases ho'
  exact hb

/-! ### The two example meshes -/

set_option maxRecDepth 4000 in
theorem triangle_new :
    Object.new rational_cmath triangle_faces triangle_vertices ⟨1, 1, 1, 1⟩ ⟨1, 1, 1⟩
      = .ok triangle_object := by
  simp [Object.new, validate, triangle_faces, triangle_vertices, array_t.of_rows, array_t.ndim,
    array_t.shape_at, for_range, List.range, List.range.loop, copy_face_step, copy_vertex_step,
    face_step, normalize_step, expand_step, store, load, add_at, array_t.row, int_mul, INT_MAX,
    List.replicate, bind, Except.bind, pure, Except.pure, vec3.splat, glm.normalize, inversesqrt,
    dot, cross, vec3.smul, rational_cmath, rational_sqrt_one, triangle_object,
    Object.set_color, Object.set_scale, Object._update_model_matrix, vec3_add_def, vec3_sub_def,
    vec3_zero_def, glm.rotate, glm.translate, glm.scale, mat4.identity, vec4.smul, vec4_add_def,
    vec3.lsmul]

set_option maxRecDepth 8000 in
theorem dihedron_new :
    Object.new rational_cmath dihedron_faces triangle_vertices ⟨1, 1, 1, 1⟩ ⟨1, 1, 1⟩
      = .ok dihedron_object := by
  simp [Object.new, validate, dihedron_faces, triangle_vertices, array_t.of_rows, array_t.ndim,
    array_t.shape_at, for_range, List.range, List.range.loop, copy_face_step, copy_vertex_step,
    face_step, normalize_step, expand_step, store, load, add_at, array_t.row, int_mul, INT_MAX,
    List.replicate, bind, Except.bind, pure, Except.pure, vec3.splat, glm.normalize, inversesqrt,
    dot, cross, vec3.smul, rational_cmath, rational_sqrt_one, rational_sqrt_zero,
    dihedron_object,
    Object.set_color, Object.set_scale, Object._update_model_matrix, vec3_add_def, vec3_sub_def,
    vec3_zero_def, glm.rotate, glm.translate, glm.scale, mat4.identity, vec4.smul, vec4_add_def,
    vec3.lsmul]

theorem dihedron_closed :
    spec_closed_consistent dihedron_object.faces = true ∧
      spec_vertices_shared dihedron_object.faces dihedron_object.num_vertices = true := by
  decide

/-! ### The copy constructor -/

theorem list_eq_of_getElem? {β : Type} (a b : List β) (n : Nat) (ha : a.length = n)
    (hb : b.length = n) (h : ∀ j, j < n → a[j]? = b[j]?) : a = b := by
  apply List.ext_getElem?
  intro j
  by_cases hj : j < n
  · exact h j hj
  · rw [List.getElem?_eq_none (by omega), List.getElem?_eq_none (by omega)]

/-- A checked read followed by a checked write of the value read, both at `m`. -/
theorem copy_entry {β : Type} (src buf : List β) (m : Int) (j n : Nat) (hm : m = (j : Int))
    (hs : src.length = n) (hb : buf.length = n) (hj : j < n) :
    ∃ b, (load src m >>= fun v => store buf m v) = .ok b ∧ b.length = n ∧
      b[j]? = src[j]? ∧ ∀ i, i ≠ j → b[i]? = buf[i]? := by
  subst hm
  cases hsj : src[j]? with
  | none =>
    rw [List.getElem?_eq_none_iff] at hsj
    omega
  | some v =>
    refine ⟨buf.set j v, ?_, by simp [hb], ?_, ?_⟩
    · rw [load_of_getElem? src _ _ (by omega) (by simpa using hsj), except_ok_bind]
      exact store_at_nat _ _ _ _ rfl (by omega)
    · rw [List.getElem?_set, if_pos rfl, if_pos (by omega)]
    · intro i hi
      rw [List.getElem?_set, if_neg (fun h => hi h.symm)]

/-- A loop that copies `src[i]` to `buf[i]` for every `i` reproduces `src`. -/
theorem copy_loop_total {β : Type} (src buf : List β) (n : Nat) (hs : src.length = n)
    (hb : buf.length = n) :
    for_range n (fun (i : Nat) b => load src (i : Int) >>= fun v => store b (i : Int) v) buf
      = .ok src := by
  obtain ⟨b, hb', hlen, hP⟩ := for_range_total
    (fun i (b : List β) => b.length = n ∧ ∀ j, j < i → b[j]? = src[j]?) n
    (fun (i : Nat) b => load src (i : Int) >>= fun v => store b (i : Int) v) buf
    ⟨hb, fun j hj => by omega⟩
    (by
      intro i t hi ⟨hl, hP⟩
      obtain ⟨b, hb1, hb2, hb3, hb4⟩ := copy_entry src t (i : Int) i n rfl hs hl hi
      refine ⟨b, hb1, hb2, ?_⟩
      intro j hj
      by_cases hji : j = i
      · subst hji; exact hb3
      · rw [hb4 j hji]; exact hP j (by omega))
  rw [hb', list_eq_of_getElem? b src n hlen hs hP]

/-- The first `m` entries of the three derived buffers agree with the source. -/
theorem clone_offset_total (source : Object α) (hwf : source.wf) (i : Nat)
    (hi : i < source.num_faces) (st : List (vec3 α) × List (vec3 α) × List (vec3 α))
    (h1 : st.1.length = source.num_faces * 3) (h2 : st.2.1.length = source.num_faces * 3)
    (h3 : st.2.2.length = source.num_faces * 3)
    (hP : ∀ j, j < i * 3 → st.1[j]? = source.face_vertices[j]? ∧
      st.2.1[j]? = source.face_normal_vectors[j]? ∧
      st.2.2[j]? = source.face_vertex_normal_vectors[j]?) :
    ∃ st', for_range 3 (clone_offset_step source i) st = .ok st' ∧
      st'.1.length = source.num_faces * 3 ∧ st'.2.1.length = source.num_faces * 3 ∧
      st'.2.2.length = source.num_faces * 3 ∧
      ∀ j, j < (i + 1) * 3 → st'.1[j]? = source.face_vertices[j]? ∧
        st'.2.1[j]? = source.face_normal_vectors[j]? ∧
        st'.2.2[j]? = source.face_vertex_normal_vectors[j]? := by
  obtain ⟨st', hst', h1', h2', h3', hP'⟩ := for_range_total
    (fun off (t : List (vec3 α) × List (vec3 α) × List (vec3 α)) =>
      t.1.length = source.num_faces * 3 ∧ t.2.1.length = source.num_faces * 3 ∧
      t.2.2.length = source.num_faces * 3 ∧
      ∀ j, j < i * 3 + off → t.1[j]? = source.face_vertices[j]? ∧
        t.2.1[j]? = source.face_normal_vectors[j]? ∧
        t.2.2[j]? = source.face_vertex_normal_vectors[j]?) 3
    (clone_offset_step source i) st ⟨h1, h2, h3, fun j hj => hP j (by omega)⟩
    (by
      intro off t hoff ⟨g1, g2, g3, gP⟩
      obtain ⟨a, ha, hal, haj, hao⟩ := copy_entry source.face_vertices t.1
        ((i : Int) * 3 + (off : Int)) (i * 3 + off) _ (by push_cast; ring)
        hwf.face_vertices_length g1 (by omega)
      obtain ⟨b, hb, hbl, hbj, hbo⟩ := copy_entry source.face_normal_vectors t.2.1
        ((i : Int) * 3 + (off : Int)) (i * 3 + off) _ (by push_cast; ring)
        hwf.face_normal_vectors_length g2 (by omega)
      obtain ⟨d, hc, hcl, hcj, hco⟩ := copy_entry source.face_vertex_normal_vectors t.2.2
        ((i : Int) * 3 + (off : Int)) (i * 3 + off) _ (by push_cast; ring)
        hwf.face_vertex_normal_vectors_length g3 (by omega)
      rw [except_bind_eq_ok] at ha hb hc
      obtain ⟨va, hva, hsa⟩ := ha
      obtain ⟨vb, hvb, hsb⟩ := hb
      obtain ⟨vc, hvc, hsc⟩ := hc
      refine ⟨(a, b, d), ?_, hal, hbl, hcl, ?_⟩
      · simp only [clone_offset_step, hva, hsa, hvb, hsb, hvc, hsc, except_ok_bind]
        rfl
      · intro j hj
        by_cases hji : j = i * 3 + off
        · subst hji; exact ⟨haj, hbj, hcj⟩
        · show a[j]? = _ ∧ b[j]? = _ ∧ d[j]? = _
          rw [hao j hji, hbo j hji, hco j hji]
          exact gP j (by omega))
  exact ⟨st', hst', h1', h2', h3', fun j hj => hP' j (by omega)⟩

/-- The copy constructor reproduces every component of a live source. -/
theorem new_copy_eq (source : Object α) (hwf : source.wf) :
    Object.new_copy source = .ok source := by
  obtain ⟨fs, hfs, g1, g2, g3, g4, g5, g6⟩ := for_range_total
    (fun i (t : List vec3i × List (vec3 α) × List (vec3 α) × List (vec3 α)) =>
      t.1.length = source.num_faces ∧ t.2.1.length = source.num_faces * 3 ∧
      t.2.2.1.length = source.num_faces * 3 ∧ t.2.2.2.length = source.num_faces * 3 ∧
      (∀ g, g < i → t.1[g]? = source.faces[g]?) ∧
      ∀ j, j < i * 3 → t.2.1[j]? = source.face_vertices[j]? ∧
        t.2.2.1[j]? = source.face_normal_vectors[j]? ∧
        t.2.2.2[j]? = source.face_vertex_normal_vectors[j]?) source.num_faces
    (clone_face_step source)
    (List.replicate source.num_faces (⟨0, 0, 0⟩ : vec3i),
      List.replicate (source.num_faces * 3) (0 : vec3 α),
      List.replicate (source.num_faces * 3) (0 : vec3 α),
      List.replicate (source.num_faces * 3) (0 : vec3 α))
    ⟨by simp, by simp, by simp, by simp, fun g hg => by omega, fun j hj => by omega⟩
    (by
      intro i t hi ⟨g1, g2, g3, g4, g5, g6⟩
      obtain ⟨a, ha, hal, haj, hao⟩ := copy_entry source.faces t.1 (i : Int) i _ rfl
        hwf.faces_length g1 hi
      obtain ⟨bufs, hbufs, b1, b2, b3, bP⟩ := clone_offset_total source hwf i hi t.2 g2 g3 g4 g6
      rw [except_bind_eq_ok] at ha
      obtain ⟨face, hface, hstore⟩ := ha
      refine ⟨(a, bufs), ?_, hal, b1, b2, b3, ?_, bP⟩
      · simp only [clone_face_step, hface, hstore, hbufs, except_ok_bind]
        rfl
      · intro g hg
        by_cases hgi : g = i
        · subst hgi; exact haj
        · show a[g]? = _
          rw [hao g hgi]; exact g5 g (by omega))
  have e : clone_vertex_step source
      = fun (i : Nat) (b : List (vec3 α)) =>
          load source.vertices (i : Int) >>= fun v => store b (i : Int) v := rfl
  have hv := copy_loop_total source.vertices (List.replicate source.num_vertices (0 : vec3 α))
    source.num_vertices hwf.vertices_length (by simp)
  have e1 := list_eq_of_getElem? fs.1 source.faces _ g1 hwf.faces_length g5
  have e2 := list_eq_of_getElem? fs.2.1 source.face_vertices _ g2 hwf.face_vertices_length
    (fun j hj => (g6 j hj).1)
  have e3 := list_eq_of_getElem? fs.2.2.1 source.face_normal_vectors _ g3
    hwf.face_normal_vectors_length (fun j hj => (g6 j hj).2.1)
  have e4 := list_eq_of_getElem? fs.2.2.2 source.face_vertex_normal_vectors _ g4
    hwf.face_vertex_normal_vectors_length (fun j hj => (g6 j hj).2.2)
  unfold Object.new_copy
  simp only [int_mul_ok source.num_faces 3 hwf.derived_size_in_int, hfs, e, hv,
    except_ok_bind, e1, e2, e3, e4]
  rfl

theorem built_from_wf (L : cmath α) (np_faces : array_t Int) (np_vertices : array_t α)
    (color : vec4 α) (scale : vec3 α) (o : Object α)
    (h : built_from L np_faces np_vertices color scale o) : o.wf :=
  ⟨h.faces_length, h.vertices_length, h.face_vertices_length, h.face_normal_vectors_length,
    h.face_vertex_normal_vectors_length, h.derived_size_in_int⟩

/-- Every object that exists has buffers of the sizes they were allocated with. -/
theorem reachable_wf (L : cmath α) (np_faces : array_t Int) (np_vertices : array_t α)
    (o : Object α) (h : reachable L np_faces np_vertices o) : o.wf := by
  induction h with
  | constructed color scale o hnew =>
    exact built_from_wf L np_faces np_vertices color scale o
      (new_ok_built L np_faces np_vertices color scale o hnew)
  | set_color o color _ ih => exact ⟨ih.1, ih.2, ih.3, ih.4, ih.5, ih.6⟩
  | set_scale o scale _ ih => exact ⟨ih.1, ih.2, ih.3, ih.4, ih.5, ih.6⟩
  | set_position o position _ ih => exact ⟨ih.1, ih.2, ih.3, ih.4, ih.5, ih.6⟩
  | set_rotation o rotation_rad _ ih => exact ⟨ih.1, ih.2, ih.3, ih.4, ih.5, ih.6⟩
  | cloned o c _ hc ih =>
    have := new_copy_eq o ih
    unfold Object.clone at hc
    rw [this] at hc
    cases hc
    exact ih

/-- The mesh of every object that exists is the one the constructor derived
from the two tables: the setters and `clone` leave the mesh components alone. -/
theorem reachable_mesh (L : cmath α) (np_faces : array_t Int) (np_vertices : array_t α)
    (o : Object α) (h : reachable L np_faces np_vertices o) :
    ∃ color scale, ∃ o0 : Object α,
      Object.new L np_faces np_vertices color scale = .ok o0 ∧
      o.faces = o0.faces ∧ o.vertices = o0.vertices ∧ o.face_vertices = o0.face_vertices ∧
      o.face_normal_vectors = o0.face_normal_vectors ∧
      o.face_vertex_normal_vectors = o0.face_vertex_normal_vectors ∧
      o.num_faces = o0.num_faces ∧ o.num_vertices = o0.num_vertices := by
  induction h with
  | constructed color scale o hnew =>
    exact ⟨color, scale, o, hnew, rfl, rfl, rfl, rfl, rfl, rfl, rfl⟩
  | set_color o color _ ih => exact ih
  | set_scale o scale _ ih => exact ih
  | set_position o position _ ih => exact ih
  | set_rotation o rotation_rad _ ih => exact ih
  | cloned o c hr hc ih =>
    have := new_copy_eq o (reachable_wf L np_faces np_vertices o hr)
    unfold Object.clone at hc
    rw [this] at hc
    cases hc
    exact ih

/-! ### Errors thrown -/

theorem no_throw_ok {β : Type} (a : β) : no_throw (Except.ok a : Except Error β) := by
  intro w h
  cases h

theorem no_throw_load {β : Type} (buf : List β) (i : Int) : no_throw (load buf i) := by
  intro w h
  unfold load at h
  split at h
  · split at h <;> cases h
  · cases h

theorem no_throw_store {β : Type} (buf : List β) (i : Int) (v : β) :
    no_throw (store buf i v) := by
  intro w h
  unfold store at h
  split at h <;> cases h

theorem no_throw_int_mul (a b : Nat) : no_throw (int_mul a b) := by
  intro w h
  unfold int_mul at h
  split at h <;> cases h

theorem no_throw_bind {β γ : Type} (x : Except Error β) (f : β → Except Error γ)
    (hx : no_throw x) (hf : ∀ a, no_throw (f a)) : no_throw (x >>= f) := by
  cases x with
  | error e =>
    intro w h
    have h2 : (Except.error e : Except Error γ) = .error (.runtime_error w) := h
    cases h2
    exact hx w rfl
  | ok a => exact hf a

theorem no_throw_for_range {σ : Type} (n : Nat) (body : Nat → σ → Except Error σ) (s : σ)
    (hb : ∀ i t, no_throw (body i t)) : no_throw (for_range n body s) := by
  induction n with
  | zero => exact no_throw_ok s
  | succ k ih =>
    rw [for_range_succ]
    exact no_throw_bind _ _ ih (hb k)

theorem no_throw_add_at (buf : List (vec3 α)) (i : Int) (v : vec3 α) :
    no_throw (add_at buf i v) :=
  no_throw_bind _ _ (no_throw_load _ _) (fun _ => no_throw_store _ _ _)

theorem no_throw_face_step (L : cmath α) (faces : List vec3i) (vertices : List (vec3 α))
    (i : Nat) (st : List (vec3 α) × List (vec3 α) × List (vec3 α)) :
    no_throw (face_step L faces vertices i st) := by
  unfold face_step
  refine no_throw_bind _ _ (no_throw_load _ _) (fun _ => ?_)
  refine no_throw_bind _ _ (no_throw_load _ _) (fun _ => ?_)
  refine no_throw_bind _ _ (no_throw_load _ _) (fun _ => ?_)
  refine no_throw_bind _ _ (no_throw_load _ _) (fun _ => ?_)
  refine no_throw_bind _ _ (no_throw_store _ _ _) (fun _ => ?_)
  refine no_throw_bind _ _ (no_throw_store _ _ _) (fun _ => ?_)
  refine no_throw_bind _ _ (no_throw_store _ _ _) (fun _ => ?_)
  refine no_throw_bind _ _ (no_throw_store _ _ _) (fun _ => ?_)
  refine no_throw_bind _ _ (no_throw_store _ _ _) (fun _ => ?_)
  refine no_throw_bind _ _ (no_throw_store _ _ _) (fun _ => ?_)
  refine no_throw_bind _ _ (no_throw_add_at _ _ _) (fun _ => ?_)
  refine no_throw_bind _ _ (no_throw_add_at _ _ _) (fun _ => ?_)
  refine no_throw_bind _ _ (no_throw_add_at _ _ _) (fun _ => ?_)
  exact no_throw_ok _

theorem no_throw_expand_step (faces : List vec3i) (vn : List (vec3 α)) (i : Nat)
    (buf : List (vec3 α)) : no_throw (expand_step faces vn i buf) := by
  unfold expand_step
  refine no_throw_bind _ _ (no_throw_load _ _) (fun _ => ?_)
  refine no_throw_bind _ _ (no_throw_load _ _) (fun _ => ?_)
  refine no_throw_bind _ _ (no_throw_store _ _ _) (fun _ => ?_)
  refine no_throw_bind _ _ (no_throw_load _ _) (fun _ => ?_)
  refine no_throw_bind _ _ (no_throw_store _ _ _) (fun _ => ?_)
  refine no_throw_bind _ _ (no_throw_load _ _) (fun _ => ?_)
  exact no_throw_store _ _ _

/-- Once validation has passed, nothing else in the constructor throws. -/
theorem no_throw_new_of_validate (L : cmath α) (np_faces : array_t Int)
    (np_vertices : array_t α) (color : vec4 α) (scale : vec3 α)
    (hv : validate np_faces np_vertices = .ok ()) :
    no_throw (Object.new L np_faces np_vertices color scale) := by
  unfold Object.new
  rw [hv, except_ok_bind]
  refine no_throw_bind _ _ (no_throw_int_mul _ _) (fun _ => ?_)
  refine no_throw_bind _ _ (no_throw_int_mul _ _) (fun _ => ?_)
  refine no_throw_bind _ _ (no_throw_int_mul _ _) (fun _ => ?_)
  refine no_throw_bind _ _ (no_throw_for_range _ _ _ (fun i t => no_throw_store _ _ _))
    (fun _ => ?_)
  refine no_throw_bind _ _ (no_throw_for_range _ _ _ (fun i t =>
    no_throw_bind _ _ (no_throw_store _ _ _) (fun _ =>
      no_throw_bind _ _ (no_throw_store _ _ _) (fun _ => no_throw_ok _)))) (fun _ => ?_)
  refine no_throw_bind _ _ (no_throw_for_range _ _ _ (fun i t => no_throw_face_step L _ _ i t))
    (fun _ => ?_)
  refine no_throw_bind _ _ (no_throw_for_range _ _ _ (fun i t =>
    no_throw_bind _ _ (no_throw_load _ _) (fun _ => no_throw_store _ _ _))) (fun _ => ?_)
  refine no_throw_bind _ _ (no_throw_for_range _ _ _ (fun i t => no_throw_expand_step _ _ i t))
    (fun _ => ?_)
  exact no_throw_ok _

/-- When validation fails, the constructor fails with the same error. -/
theorem new_of_validate_error (L : cmath α) (np_faces : array_t Int)
    (np_vertices : array_t α) (color : vec4 α) (scale : vec3 α) (e : Error)
    (hv : validate np_faces np_vertices = .error e) :
    Object.new L np_faces np_vertices color scale = .error e := by
  unfold Object.new
  rw [hv]
  rfl

/-- Validation fails exactly on a wrong rank or width, with a `runtime_error`. -/
theorem validate_error_iff (np_faces : array_t Int) (np_vertices : array_t α) :
    (∃ what, validate np_faces np_vertices = .error (.runtime_error what)) ↔
      (np_faces.ndim ≠ 2 ∨ np_vertices.ndim ≠ 2 ∨ np_faces.shape_at 1 ≠ 3 ∨
        np_vertices.shape_at 1 ≠ 3) := by
  unfold validate
  by_cases h1 : np_faces.ndim = 2 <;> by_cases h2 : np_vertices.ndim = 2 <;>
    by_cases h3 : np_faces.shape_at 1 = 3 <;> by_cases h4 : np_vertices.shape_at 1 = 3 <;>
    simp [h1, h2, h3, h4]

/-! ### The model matrix -/

/-- C1: for every position `p`, rotation `(rx, ry, rz)` and scale `s` an object
holds, the matrix `_update_model_matrix` stores is the product
`T(p) · Rx(rx) · Ry(ry) · Rz(rz) · S(s)`, and it sends a local point `v` to
`p + Rx · Ry · Rz · (s ⊙ v)`: scale first, then rotation, then translation.
The square root is taken to be exact at one, where glm normalises the axes. -/
theorem update_model_matrix_eq_T_Rx_Ry_Rz_S (L : cmath α) (hsqrt : L.sqrt 1 = 1)
    (o : Object α) :
    (o._update_model_matrix L).model_matrix.toMatrix
        = spec_T o.position * spec_Rx L o.rotation_rad.x * spec_Ry L o.rotation_rad.y
          * spec_Rz L o.rotation_rad.z * spec_S o.scale ∧
      ∀ v : vec3 α,
        (o._update_model_matrix L).model_matrix.toMatrix.mulVec ![v.x, v.y, v.z, 1]
          = ![o.position.x
                + (spec_Rx3 L o.rotation_rad.x * spec_Ry3 L o.rotation_rad.y
                    * spec_Rz3 L o.rotation_rad.z).mulVec
                  ![o.scale.x * v.x, o.scale.y * v.y, o.scale.z * v.z] 0,
              o.position.y
                + (spec_Rx3 L o.rotation_rad.x * spec_Ry3 L o.rotation_rad.y
                    * spec_Rz3 L o.rotation_rad.z).mulVec
                  ![o.scale.x * v.x, o.scale.y * v.y, o.scale.z * v.z] 1,
              o.position.z
                + (spec_Rx3 L o.rotation_rad.x * spec_Ry3 L o.rotation_rad.y
                    * spec_Rz3 L o.rotation_rad.z).mulVec
                  ![o.scale.x * v.x, o.scale.y * v.y, o.scale.z * v.z] 2,
              1] := by
  have h := update_model_matrix_entries L hsqrt o
  refine ⟨h, fun v => ?_⟩
  rw [h]
  exact spec_model_matrix_mulVec L o.position o.rotation_rad o.scale v

/-- C1 at the triangle object, moved to `(1, 2, 3)`, turned and scaled. -/
theorem update_model_matrix_eq_T_Rx_Ry_Rz_S_witness :
    rational_cmath.sqrt 1 = 1 ∧
      (({ triangle_object with
            position := ⟨1, 2, 3⟩, rotation_rad := ⟨1, 0, 1⟩, scale := ⟨2, 1, 1⟩ } :
          Object ℚ)._update_model_matrix rational_cmath).model_matrix.toMatrix
        = spec_T ⟨1, 2, 3⟩ * spec_Rx rational_cmath 1 * spec_Ry rational_cmath 0
          * spec_Rz rational_cmath 1 * spec_S ⟨2, 1, 1⟩ :=
  ⟨rational_sqrt_one,
    (update_model_matrix_eq_T_Rx_Ry_Rz_S rational_cmath rational_sqrt_one
      { triangle_object with
        position := ⟨1, 2, 3⟩, rotation_rad := ⟨1, 0, 1⟩, scale := ⟨2, 1, 1⟩ }).1⟩

/-! ### The derived buffers -/

theorem normalize_eq_div_length (L : cmath α) (v : vec3 α) :
    glm.normalize L v = spec_div v (spec_length L v) := by
  simp [glm.normalize, inversesqrt, dot, vec3.smul, spec_div, spec_length, div_eq_mul_inv]

theorem lt_of_load_ok {β : Type} (buf : List β) (f : Nat) (v : β)
    (h : load buf (f : Int) = .ok v) : f < buf.length ∧ buf[f]? = some v := by
  rw [load_ok_iff] at h
  have h2 : buf[f]? = some v := by simpa using h.2
  exact ⟨lt_length_of_getElem? buf f v h2, h2⟩

theorem position_of_eq_of_load (buf : List (vec3 α)) (i : Int) (v : vec3 α)
    (h : load buf i = .ok v) : position_of buf i = v :=
  position_of_eq_of_getElem? buf i v ((load_ok_iff buf i v).mp h).2

/-- C2: in a constructed mesh, for a face `f` with in-range indices and vertex
positions `va, vb, vc` whose triangle is non-degenerate, each of the entries
`face_normal_vectors[3f+0..2]` is `normalize(cross(vb - va, vc - va))`, which is
the cross product divided by its Euclidean length. -/
theorem face_normal_vectors_eq_normalized_cross (L : cmath α) (np_faces : array_t Int)
    (np_vertices : array_t α) (color : vec4 α) (scale : vec3 α) (o : Object α)
    (h : Object.new L np_faces np_vertices color scale = .ok o)
    (f : Nat) (face : vec3i) (va vb vc : vec3 α)
    (hface : load o.faces (f : Int) = .ok face)
    (hva : load o.vertices face.x = .ok va) (hvb : load o.vertices face.y = .ok vb)
    (hvc : load o.vertices face.z = .ok vc)
    (_hnd : cross (vb - va) (vc - va) ≠ 0) :
    (∀ k : Fin 3, o.face_normal_vectors[3 * f + k.val]?
        = some (glm.normalize L (cross (vb - va) (vc - va)))) ∧
      glm.normalize L (cross (vb - va) (vc - va))
        = spec_div (cross (vb - va) (vc - va)) (spec_length L (cross (vb - va) (vc - va))) := by
  have hb := new_ok_built L np_faces np_vertices color scale o h
  obtain ⟨hlt, hget⟩ := lt_of_load_ok o.faces f face hface
  rw [hb.faces_length] at hlt
  refine ⟨fun k => ?_, normalize_eq_div_length L _⟩
  rw [Nat.mul_comm 3 f, hb.face_normal_vectors_at f hlt k]
  simp only [spec_flat_normal, face_of_eq_of_getElem? o.faces f face hget,
    position_of_eq_of_load o.vertices _ _ hva, position_of_eq_of_load o.vertices _ _ hvb,
    position_of_eq_of_load o.vertices _ _ hvc]

/-- C2 at the single triangle: its three entries are `(0, 0, 1)`. -/
theorem face_normal_vectors_eq_normalized_cross_witness :
    (∀ k : Fin 3, triangle_object.face_normal_vectors[3 * 0 + k.val]?
        = some (glm.normalize rational_cmath
            (cross ((⟨1, 0, 0⟩ : vec3 ℚ) - ⟨0, 0, 0⟩) ((⟨0, 1, 0⟩ : vec3 ℚ) - ⟨0, 0, 0⟩)))) ∧
      glm.normalize rational_cmath
          (cross ((⟨1, 0, 0⟩ : vec3 ℚ) - ⟨0, 0, 0⟩) ((⟨0, 1, 0⟩ : vec3 ℚ) - ⟨0, 0, 0⟩))
        = spec_div (cross ((⟨1, 0, 0⟩ : vec3 ℚ) - ⟨0, 0, 0⟩) ((⟨0, 1, 0⟩ : vec3 ℚ) - ⟨0, 0, 0⟩))
            (spec_length rational_cmath
              (cross ((⟨1, 0, 0⟩ : vec3 ℚ) - ⟨0, 0, 0⟩) ((⟨0, 1, 0⟩ : vec3 ℚ) - ⟨0, 0, 0⟩))) :=
  face_normal_vectors_eq_normalized_cross rational_cmath triangle_faces triangle_vertices
    ⟨1, 1, 1, 1⟩ ⟨1, 1, 1⟩ triangle_object triangle_new 0 ⟨0, 1, 2⟩ ⟨0, 0, 0⟩ ⟨1, 0, 0⟩
    ⟨0, 1, 0⟩ rfl rfl rfl rfl
    (by simp [cross, vec3_sub_def, vec3_zero_def])

/-- C3: in a constructed mesh, for every face `f` and slot `k`,
`face_vertex_normal_vectors[3f+k]` is `normalize(A(v))` for `v = faces[f][k]`,
where `A(v)` sums, over all faces `g` of the mesh and all slots `j` with
`faces[g][j] = v`, the flat normal of `g`, which is the value stored in
`face_normal_vectors` for `g`. -/
theorem face_vertex_normal_vectors_eq_normalized_sum (L : cmath α) (np_faces : array_t Int)
    (np_vertices : array_t α) (color : vec4 α) (scale : vec3 α) (o : Object α)
    (h : Object.new L np_faces np_vertices color scale = .ok o)
    (f : Nat) (face : vec3i) (hface : load o.faces (f : Int) = .ok face) (k : Fin 3) :
    o.face_vertex_normal_vectors[3 * f + k.val]?
        = some (glm.normalize L
            (∑ g in Finset.range o.num_faces, ∑ j : Fin 3,
              if (face_of o.faces g).get j = face.get k
              then spec_flat_normal L o.faces o.vertices g else 0)) ∧
      ∀ g, g < o.num_faces → ∀ j : Fin 3,
        o.face_normal_vectors[3 * g + j.val]? = some (spec_flat_normal L o.faces o.vertices g) := by
  have hb := new_ok_built L np_faces np_vertices color scale o h
  obtain ⟨hlt, hget⟩ := lt_of_load_ok o.faces f face hface
  rw [hb.faces_length] at hlt
  refine ⟨?_, fun g hg j => ?_⟩
  · rw [Nat.mul_comm 3 f, hb.face_vertex_normal_vectors_at f hlt k,
      face_of_eq_of_getElem? o.faces f face hget]
    rfl
  · rw [Nat.mul_comm 3 g]
    exact hb.face_normal_vectors_at g hg j

/-- C3 at the single triangle, face 0, slot 1. -/
theorem face_vertex_normal_vectors_eq_normalized_sum_witness :
    load triangle_object.faces ((0 : Nat) : Int) = .ok (⟨0, 1, 2⟩ : vec3i) ∧
      triangle_object.face_vertex_normal_vectors[3 * 0 + (1 : Fin 3).val]?
        = some (glm.normalize rational_cmath
            (∑ g in Finset.range triangle_object.num_faces, ∑ j : Fin 3,
              if (face_of triangle_object.faces g).get j = (⟨0, 1, 2⟩ : vec3i).get 1
              then spec_flat_normal rational_cmath triangle_object.faces
                triangle_object.vertices g else 0)) :=
  ⟨rfl, (face_vertex_normal_vectors_eq_normalized_sum rational_cmath triangle_faces
    triangle_vertices ⟨1, 1, 1, 1⟩ ⟨1, 1, 1⟩ triangle_object triangle_new 0 ⟨0, 1, 2⟩ rfl 1).1⟩

/-- C4: in a constructed mesh, `face_vertices[3f+k]` is `vertices[faces[f][k]]`
for every face `f` and slot `k`, and the stored faces and vertices are the rows
of the two input tables, one for one. -/
theorem face_vertices_eq_lookup (L : cmath α) (np_faces : array_t Int)
    (np_vertices : array_t α) (color : vec4 α) (scale : vec3 α) (o : Object α)
    (h : Object.new L np_faces np_vertices color scale = .ok o) :
    (∀ f, f < o.num_faces → ∀ k : Fin 3, ∃ face v,
        o.faces[f]? = some face ∧ load o.vertices (face.get k) = .ok v ∧
        o.face_vertices[3 * f + k.val]? = some v) ∧
      (o.faces.length = np_faces.shape_at 0 ∧
        ∀ f, f < np_faces.shape_at 0 → o.faces[f]? = some (np_faces.row f)) ∧
      (o.vertices.length = np_vertices.shape_at 0 ∧
        ∀ v, v < np_vertices.shape_at 0 → o.vertices[v]? = some (np_vertices.row v)) := by
  have hb := new_ok_built L np_faces np_vertices color scale o h
  refine ⟨fun f hf k => ?_, ⟨?_, ?_⟩, ⟨?_, ?_⟩⟩
  · have hfo := face_of_eq_of_getElem? o.faces f _ (hb.faces_row f hf)
    have hr := hb.in_range f hf k
    refine ⟨np_faces.row f, position_of o.vertices ((np_faces.row f).get k), hb.faces_row f hf,
      ?_, ?_⟩
    · exact load_of_getElem? _ _ _ hr.1
        (getElem?_position_of o.vertices _ (by rw [hb.vertices_length]; exact hr.2))
    · rw [Nat.mul_comm 3 f, hb.face_vertices_at f hf k, hfo]
  · rw [hb.faces_length, hb.num_faces_eq]
  · intro f hf
    exact hb.faces_row f (by rw [hb.num_faces_eq]; exact hf)
  · rw [hb.vertices_length, hb.num_vertices_eq]
  · intro v hv
    exact hb.vertices_row v (by rw [hb.num_vertices_eq]; exact hv)

/-- C4 at the single triangle: the entry of face 0, slot 2. -/
theorem face_vertices_eq_lookup_witness :
    Object.new rational_cmath triangle_faces triangle_vertices ⟨1, 1, 1, 1⟩ ⟨1, 1, 1⟩
        = .ok triangle_object ∧
      ∃ face v, triangle_object.faces[0]? = some face ∧
        load triangle_object.vertices (face.get 2) = .ok v ∧
        triangle_object.face_vertices[3 * 0 + (2 : Fin 3).val]? = some v :=
  ⟨triangle_new,
    (face_vertices_eq_lookup rational_cmath triangle_faces triangle_vertices ⟨1, 1, 1, 1⟩
      ⟨1, 1, 1⟩ triangle_object triangle_new).1 0 (by decide) 2⟩

/-! ### Validation -/

/-- C5: the constructor ends in the thrown validation error exactly when the face
table is not rank 2, or the position table is not rank 2, or the face table's
row width is not 3, or the position table's row width is not 3; so a face table
of shape `N × w` with `w ≠ 3` (such as `N × 2`) is rejected, likewise a position
table, and a call that fails produces no object. -/
theorem new_throws_iff_bad_shape (L : cmath α) (np_faces : array_t Int)
    (np_vertices : array_t α) (color : vec4 α) (scale : vec3 α) :
    ((∃ what, Object.new L np_faces np_vertices color scale
          = .error (.runtime_error what)) ↔
        (np_faces.ndim ≠ 2 ∨ np_vertices.ndim ≠ 2 ∨ np_faces.shape_at 1 ≠ 3 ∨
          np_vertices.shape_at 1 ≠ 3)) ∧
      (∀ n w, np_faces.shape = [n, w] → w ≠ 3 →
        ∃ what, Object.new L np_faces np_vertices color scale
          = .error (.runtime_error what)) ∧
      (∀ n w, np_vertices.shape = [n, w] → w ≠ 3 →
        ∃ what, Object.new L np_faces np_vertices color scale
          = .error (.runtime_error what)) ∧
      ∀ e, Object.new L np_faces np_vertices color scale = .error e →
        ∀ o, Object.new L np_faces np_vertices color scale ≠ .ok o := by
  have key : (∃ what, Object.new L np_faces np_vertices color scale
        = .error (.runtime_error what)) ↔
      (np_faces.ndim ≠ 2 ∨ np_vertices.ndim ≠ 2 ∨ np_faces.shape_at 1 ≠ 3 ∨
        np_vertices.shape_at 1 ≠ 3) := by
    constructor
    · rintro ⟨what, hw⟩
      by_contra hn
      simp only [not_or, not_not] at hn
      obtain ⟨h1, h2, h3, h4⟩ := hn
      exact no_throw_new_of_validate L np_faces np_vertices color scale
        (validate_ok np_faces np_vertices h1 h2 h3 h4) what hw
    · intro hbad
      obtain ⟨what, hw⟩ := (validate_error_iff np_faces np_vertices).mpr hbad
      exact ⟨what, new_of_validate_error L np_faces np_vertices color scale _ hw⟩
  refine ⟨key, ?_, ?_, ?_⟩
  · intro n w hs hw
    exact key.mpr (Or.inr (Or.inr (Or.inl (by simpa [array_t.shape_at, hs] using hw))))
  · intro n w hs hw
    exact key.mpr (Or.inr (Or.inr (Or.inr (by simpa [array_t.shape_at, hs] using hw))))
  · intro e he o ho
    rw [he] at ho
    cases ho

/-! ### Sizes of the derived buffers -/

/-- C6: for every mesh that exists (a constructed object, a clone of one, or
either after any setters), the three derived sequences have exactly
`3 × num_faces` entries, `num_faces` being the number of rows of the face
table. -/
theorem derived_lengths_eq_three_num_faces (L : cmath α) (np_faces : array_t Int)
    (np_vertices : array_t α) (o : Object α) (h : reachable L np_faces np_vertices o) :
    o.face_vertices.length = 3 * o.num_faces ∧
      o.face_normal_vectors.length = 3 * o.num_faces ∧
      o.face_vertex_normal_vectors.length = 3 * o.num_faces ∧
      o.num_faces = np_faces.shape_at 0 := by
  have hwf := reachable_wf L np_faces np_vertices o h
  obtain ⟨color, scale, o0, hnew, _, _, _, _, _, hnf, _⟩ :=
    reachable_mesh L np_faces np_vertices o h
  have hb := new_ok_built L np_faces np_vertices color scale o0 hnew
  refine ⟨?_, ?_, ?_, ?_⟩
  · rw [hwf.face_vertices_length, Nat.mul_comm]
  · rw [hwf.face_normal_vectors_length, Nat.mul_comm]
  · rw [hwf.face_vertex_normal_vectors_length, Nat.mul_comm]
  · rw [hnf, hb.num_faces_eq]

theorem triangle_clone : triangle_object.clone = .ok triangle_object :=
  new_copy_eq triangle_object ⟨rfl, rfl, rfl, rfl, rfl, by decide⟩

/-- C6 at a clone of the single triangle. -/
theorem derived_lengths_eq_three_num_faces_witness :
    triangle_object.face_vertices.length = 3 * triangle_object.num_faces ∧
      triangle_object.face_normal_vectors.length = 3 * triangle_object.num_faces ∧
      triangle_object.face_vertex_normal_vectors.length = 3 * triangle_object.num_faces ∧
      triangle_object.num_faces = triangle_faces.shape_at 0 :=
  derived_lengths_eq_three_num_faces rational_cmath triangle_faces triangle_vertices
    triangle_object
    (reachable.cloned triangle_object triangle_object
      (reachable.constructed ⟨1, 1, 1, 1⟩ ⟨1, 1, 1⟩ triangle_object triangle_new)
      triangle_clone)

/-! ### The model matrix is kept current -/

/-- C7: in every state reached by constructing an object and then applying any
finite sequence of `set_color`, `set_scale`, `set_position`, `set_rotation` and
`clone`, the stored model matrix is the one `_update_model_matrix` computes from
the current position, rotation and scale. -/
theorem model_matrix_never_stale (L : cmath α) (np_faces : array_t Int)
    (np_vertices : array_t α) (o : Object α) (h : reachable L np_faces np_vertices o) :
    o.model_matrix = (o._update_model_matrix L).model_matrix := by
  induction h with
  | constructed color scale o hnew =>
    exact (new_ok_built L np_faces np_vertices color scale o hnew).model_matrix_eq
  | set_color o color _ ih => exact ih
  | set_scale o scale _ _ => rfl
  | set_position o position _ _ => rfl
  | set_rotation o rotation_rad _ _ => rfl
  | cloned o c hr hc ih =>
    have := new_copy_eq o (reachable_wf L np_faces np_vertices o hr)
    unfold Object.clone at hc
    rw [this] at hc
    cases hc
    exact ih

/-- C7 after constructing the triangle, cloning it, and moving, recolouring and
scaling the clone. -/
theorem model_matrix_never_stale_witness :
    (((triangle_object.set_position rational_cmath ⟨1, 2, 3⟩).set_color
          ⟨0, 0, 0, 1⟩).set_scale rational_cmath ⟨2, 1, 1⟩).model_matrix
      = ((((triangle_object.set_position rational_cmath ⟨1, 2, 3⟩).set_color
          ⟨0, 0, 0, 1⟩).set_scale rational_cmath ⟨2, 1, 1⟩)._update_model_matrix
            rational_cmath).model_matrix :=
  model_matrix_never_stale rational_cmath triangle_faces triangle_vertices _
    (reachable.set_scale _ ⟨2, 1, 1⟩
      (reachable.set_color _ ⟨0, 0, 0, 1⟩
        (reachable.set_position _ ⟨1, 2, 3⟩
          (reachable.cloned triangle_object triangle_object
            (reachable.constructed ⟨1, 1, 1, 1⟩ ⟨1, 1, 1⟩ triangle_object triangle_new)
            triangle_clone))))

/-! ### Cloning -/

/-- A method call on one heap object leaves every other heap object as it was. -/
theorem heap_call_frame (heap : List (Object α)) (c this : Nat) (oc o : Object α)
    (m : Object α → Object α) (hc : load heap (c : Int) = .ok oc)
    (ht : load heap (this : Int) = .ok o) (hne : c ≠ this) :
    ∃ h2, heap_call heap c m = .ok h2 ∧ load h2 (this : Int) = .ok o ∧
      load h2 (c : Int) = .ok (m oc) := by
  obtain ⟨hclt, _⟩ := lt_of_load_ok heap c oc hc
  obtain ⟨htlt, htget⟩ := lt_of_load_ok heap this o ht
  refine ⟨heap.set c (m oc), ?_, ?_, ?_⟩
  · unfold heap_call
    rw [hc, except_ok_bind]
    exact store_at_nat _ _ _ _ rfl hclt
  · apply load_of_getElem? _ _ _ (by omega)
    simp only [Int.toNat_ofNat]
    rw [List.getElem?_set, if_neg hne]
    exact htget
  · apply load_of_getElem? _ _ _ (by omega)
    simp only [Int.toNat_ofNat]
    rw [List.getElem?_set, if_pos rfl, if_pos hclt]

/-- C8: `clone` of a live object `o` returns an object equal to `o` in every
component (sizes, the five buffers, position, rotation, scale, colour and model
matrix); the clone is a new heap object, and `set_position`, `set_rotation` or
`set_scale` applied to it leave the source, model matrix included, unchanged. -/
theorem clone_equal_and_independent (L : cmath α) (heap : List (Object α)) (this : Nat)
    (o : Object α) (hload : load heap (this : Int) = .ok o) (hwf : o.wf) :
    o.clone = .ok o ∧
      ∃ heap2 c, heap_clone heap this = .ok (heap2, c) ∧ c ≠ this ∧
        load heap2 (c : Int) = .ok o ∧ load heap2 (this : Int) = .ok o ∧
        ∀ v : vec3 α,
          (∃ h3, heap_call heap2 c (fun x => x.set_position L v) = .ok h3 ∧
            load h3 (this : Int) = .ok o ∧ load h3 (c : Int) = .ok (o.set_position L v)) ∧
          (∃ h3, heap_call heap2 c (fun x => x.set_rotation L v) = .ok h3 ∧
            load h3 (this : Int) = .ok o ∧ load h3 (c : Int) = .ok (o.set_rotation L v)) ∧
          (∃ h3, heap_call heap2 c (fun x => x.set_scale L v) = .ok h3 ∧
            load h3 (this : Int) = .ok o ∧ load h3 (c : Int) = .ok (o.set_scale L v)) := by
  have hclone : o.clone = .ok o := new_copy_eq o hwf
  obtain ⟨hlt, hget⟩ := lt_of_load_ok heap this o hload
  have hne : heap.length ≠ this := by omega
  have hc : load (heap ++ [o]) ((heap.length : Nat) : Int) = .ok o := by
    apply load_of_getElem? _ _ _ (by omega)
    simp
  have ht : load (heap ++ [o]) (this : Int) = .ok o := by
    apply load_of_getElem? _ _ _ (by omega)
    simp only [Int.toNat_ofNat]
    rw [List.getElem?_append_left hlt]
    exact hget
  refine ⟨hclone, heap ++ [o], heap.length, ?_, hne, hc, ht, fun v => ⟨?_, ?_, ?_⟩⟩
  · unfold heap_clone
    rw [hload, except_ok_bind, hclone, except_ok_bind]
    rfl
  · exact heap_call_frame (heap ++ [o]) heap.length this o o _ hc ht hne
  · exact heap_call_frame (heap ++ [o]) heap.length this o o _ hc ht hne
  · exact heap_call_frame (heap ++ [o]) heap.length this o o _ hc ht hne

/-- C8 on the heap that holds the single triangle. -/
theorem clone_equal_and_independent_witness :
    load [triangle_object] ((0 : Nat) : Int) = .ok triangle_object ∧
      triangle_object.clone = .ok triangle_object :=
  ⟨rfl, (clone_equal_and_independent rational_cmath [triangle_object] 0 triangle_object rfl
    ⟨rfl, rfl, rfl, rfl, rfl, by decide⟩).1⟩

/-! ### Smooth normals of closed meshes -/

/-- C9 fails on the doubly covered triangle: the mesh is closed, consistently
wound, every vertex is shared by two faces, and every smooth normal written has
length zero, the two flat normals at each vertex cancelling. -/
theorem closed_mesh_smooth_normal_not_unit :
    Object.new rational_cmath dihedron_faces triangle_vertices ⟨1, 1, 1, 1⟩ ⟨1, 1, 1⟩
        = .ok dihedron_object ∧
      spec_closed_consistent dihedron_object.faces = true ∧
      spec_vertices_shared dihedron_object.faces dihedron_object.num_vertices = true ∧
      ∀ n ∈ dihedron_object.face_vertex_normal_vectors,
        spec_length rational_cmath n = 0 ∧ spec_length rational_cmath n ≠ 1 := by
  refine ⟨dihedron_new, dihedron_closed.1, dihedron_closed.2, ?_⟩
  intro n hn
  simp only [dihedron_object, List.mem_cons, List.mem_singleton, List.not_mem_nil, or_false,
    or_self] at hn
  subst hn
  simp [spec_length, rational_cmath, rational_sqrt_zero]

theorem dot_self_ne_zero {β : Type} [LinearOrderedField β] (v : vec3 β) (h : v ≠ 0) :
    dot v v ≠ 0 := by
  intro hd
  apply h
  unfold dot at hd
  have hx : v.x = 0 := by nlinarith [mul_self_nonneg v.x, mul_self_nonneg v.y, mul_self_nonneg v.z]
  have hy : v.y = 0 := by nlinarith [mul_self_nonneg v.x, mul_self_nonneg v.y, mul_self_nonneg v.z]
  have hz : v.z = 0 := by nlinarith [mul_self_nonneg v.x, mul_self_nonneg v.y, mul_self_nonneg v.z]
  exact vec3.ext hx hy hz

theorem dot_normalize_self (L : cmath α) (v : vec3 α) (hd : dot v v ≠ 0)
    (hs : L.sqrt (dot v v) * L.sqrt (dot v v) = dot v v) :
    dot (glm.normalize L v) (glm.normalize L v) = 1 := by
  have hne : L.sqrt (dot v v) ≠ 0 := by
    intro h0
    rw [h0, mul_zero] at hs
    exact hd hs.symm
  have e : dot (glm.normalize L v) (glm.normalize L v)
      = dot v v * (1 / L.sqrt (dot v v)) * (1 / L.sqrt (dot v v)) := by
    simp only [glm.normalize, inversesqrt, dot, vec3.smul]
    ring
  rw [e]
  generalize L.sqrt (dot v v) = s at hs hne
  rw [← hs]
  field_simp

/-- C9, amended: in a constructed mesh, closed or not, the smooth normal written
for slot `k` of face `f` has unit Euclidean length whenever every face that
touches its vertex `v` is non-degenerate (a non-zero cross product, whose
squared length has a non-zero square root, so that no flat normal summed into
`A(v)` divides by zero) and the accumulated sum `A(v)` is non-zero, the square
root being exact at the squared length of `A(v)` and at one. -/
theorem smooth_normal_unit_of_nonzero_sum {β : Type} [LinearOrderedField β] (L : cmath β)
    (np_faces : array_t Int) (np_vertices : array_t β) (color : vec4 β) (scale : vec3 β)
    (o : Object β) (h : Object.new L np_faces np_vertices color scale = .ok o)
    (f : Nat) (face : vec3i) (hface : load o.faces (f : Int) = .ok face) (k : Fin 3)
    (_hfaces : ∀ g, g < o.num_faces → ∀ j : Fin 3, (face_of o.faces g).get j = face.get k →
      spec_face_cross o.faces o.vertices g ≠ 0 ∧
      L.sqrt (dot (spec_face_cross o.faces o.vertices g)
        (spec_face_cross o.faces o.vertices g)) ≠ 0)
    (hA : spec_accumulated L o.faces o.vertices o.num_faces (face.get k) ≠ 0)
    (hs : L.sqrt (dot (spec_accumulated L o.faces o.vertices o.num_faces (face.get k))
            (spec_accumulated L o.faces o.vertices o.num_faces (face.get k)))
          * L.sqrt (dot (spec_accumulated L o.faces o.vertices o.num_faces (face.get k))
            (spec_accumulated L o.faces o.vertices o.num_faces (face.get k)))
        = dot (spec_accumulated L o.faces o.vertices o.num_faces (face.get k))
            (spec_accumulated L o.faces o.vertices o.num_faces (face.get k)))
    (hs1 : L.sqrt 1 = 1) :
    ∃ n, o.face_vertex_normal_vectors[3 * f + k.val]? = some n ∧
      n.x * n.x + n.y * n.y + n.z * n.z = 1 ∧ spec_length L n = 1 := by
  have hb := new_ok_built L np_faces np_vertices color scale o h
  obtain ⟨hlt, hget⟩ := lt_of_load_ok o.faces f face hface
  rw [hb.faces_length] at hlt
  have hunit := dot_normalize_self L _ (dot_self_ne_zero _ hA) hs
  refine ⟨_, ?_, hunit, ?_⟩
  · rw [Nat.mul_comm 3 f, hb.face_vertex_normal_vectors_at f hlt k,
      face_of_eq_of_getElem? o.faces f face hget]
  · unfold spec_length
    unfold dot at hunit
    rw [hunit, hs1]

theorem triangle_accumulated :
    spec_accumulated rational_cmath triangle_object.faces triangle_object.vertices
      triangle_object.num_faces ((⟨0, 1, 2⟩ : vec3i).get 0) = ⟨0, 0, 1⟩ := by
  simp [spec_accumulated, triangle_object, Finset.sum_range_one, Fin.sum_univ_three, face_of,
    vec3.get, spec_flat_normal, position_of, glm.normalize, inversesqrt, dot, cross, vec3.smul,
    vec3_sub_def, vec3_add_def, vec3_zero_def, rational_cmath, rational_sqrt_one]

theorem triangle_face_cross (g : Nat) (hg : g < triangle_object.num_faces) :
    spec_face_cross triangle_object.faces triangle_object.vertices g = ⟨0, 0, 1⟩ := by
  have h0 : g = 0 := by
    have : g < 1 := hg
    omega
  subst h0
  simp [spec_face_cross, triangle_object, face_of, position_of, cross, vec3_sub_def]

/-- C9, amended, at vertex 0 of the single triangle, whose one face has cross
product `(0, 0, 1)` and whose sum is `(0, 0, 1)`. -/
theorem smooth_normal_unit_of_nonzero_sum_witness :
    (∀ g, g < triangle_object.num_faces → ∀ j : Fin 3,
        (face_of triangle_object.faces g).get j = (⟨0, 1, 2⟩ : vec3i).get 0 →
        spec_face_cross triangle_object.faces triangle_object.vertices g ≠ 0 ∧
        rational_cmath.sqrt (dot (spec_face_cross triangle_object.faces
            triangle_object.vertices g)
          (spec_face_cross triangle_object.faces triangle_object.vertices g)) ≠ 0) ∧
      spec_accumulated rational_cmath triangle_object.faces triangle_object.vertices
        triangle_object.num_faces ((⟨0, 1, 2⟩ : vec3i).get 0) ≠ 0 ∧
      ∃ n, triangle_object.face_vertex_normal_vectors[3 * 0 + (0 : Fin 3).val]? = some n ∧
        n.x * n.x + n.y * n.y + n.z * n.z = 1 ∧ spec_length rational_cmath n = 1 :=
  ⟨fun g hg _ _ => by
      rw [triangle_face_cross g hg]
      exact ⟨by simp [vec3_zero_def], by simp [dot, rational_cmath, rational_sqrt_one]⟩,
    by rw [triangle_accumulated]; simp [vec3_zero_def],
    smooth_normal_unit_of_nonzero_sum rational_cmath triangle_faces triangle_vertices
      ⟨1, 1, 1, 1⟩ ⟨1, 1, 1⟩ triangle_object triangle_new 0 ⟨0, 1, 2⟩ rfl 0
      (fun g hg _ _ => by
        rw [triangle_face_cross g hg]
        exact ⟨by simp [vec3_zero_def], by simp [dot, rational_cmath, rational_sqrt_one]⟩)
      (by rw [triangle_accumulated]; simp [vec3_zero_def])
      (by rw [triangle_accumulated]; simp [dot, rational_cmath, rational_sqrt_one])
      rational_sqrt_one⟩

/-! ### A pure translation -/

/-- C10: after `set_position (1, 2, 3)`, `set_rotation (0, 0, 0)` and
`set_scale (1, 1, 1)` the model matrix is the pure translation by `(1, 2, 3)`:
the identity with last column `(1, 2, 3, 1)`. The library functions are taken
exact at these arguments: `cos 0 = 1`, `sin 0 = 0`, `sqrt 1 = 1`. -/
theorem model_matrix_pure_translation (L : cmath α) (hcos : L.cos 0 = 1)
    (hsin : L.sin 0 = 0) (hsqrt : L.sqrt 1 = 1) (o : Object α) :
    (((o.set_position L ⟨1, 2, 3⟩).set_rotation L ⟨0, 0, 0⟩).set_scale L
        ⟨1, 1, 1⟩).model_matrix
        = ⟨⟨1, 0, 0, 0⟩, ⟨0, 1, 0, 0⟩, ⟨0, 0, 1, 0⟩, ⟨1, 2, 3, 1⟩⟩ ∧
      (((o.set_position L ⟨1, 2, 3⟩).set_rotation L ⟨0, 0, 0⟩).set_scale L
        ⟨1, 1, 1⟩).model_matrix.toMatrix = spec_T ⟨1, 2, 3⟩ := by
  have e : (((o.set_position L ⟨1, 2, 3⟩).set_rotation L ⟨0, 0, 0⟩).set_scale L
        ⟨1, 1, 1⟩).model_matrix
      = ⟨⟨1, 0, 0, 0⟩, ⟨0, 1, 0, 0⟩, ⟨0, 0, 1, 0⟩, ⟨1, 2, 3, 1⟩⟩ := by
    simp [Object.set_position, Object.set_rotation, Object.set_scale,
      Object._update_model_matrix, glm.rotate, normalize_unit_x L hsqrt,
      normalize_unit_y L hsqrt, normalize_unit_z L hsqrt, hcos, hsin, glm.translate, glm.scale,
      mat4.identity, vec4.smul, vec4_add_def, vec3.lsmul]
  refine ⟨e, ?_⟩
  rw [e]
  rfl

/-- C10 at the single triangle, with the rational library functions. -/
theorem model_matrix_pure_translation_witness :
    (rational_cmath.cos 0 = 1 ∧ rational_cmath.sin 0 = 0 ∧ rational_cmath.sqrt 1 = 1) ∧
      (((triangle_object.set_position rational_cmath ⟨1, 2, 3⟩).set_rotation rational_cmath
          ⟨0, 0, 0⟩).set_scale rational_cmath ⟨1, 1, 1⟩).model_matrix
        = ⟨⟨1, 0, 0, 0⟩, ⟨0, 1, 0, 0⟩, ⟨0, 0, 1, 0⟩, ⟨1, 2, 3, 1⟩⟩ :=
  ⟨⟨by simp [rational_cmath], by simp [rational_cmath], rational_sqrt_one⟩,
    (model_matrix_pure_translation rational_cmath (by simp [rational_cmath])
      (by simp [rational_cmath]) rational_sqrt_one triangle_object).1⟩

/-! ### Scale and rotation do not commute -/

theorem spec_T_zero : spec_T (⟨0, 0, 0⟩ : vec3 α) = 1 := by
  ext i j
  fin_cases i <;> fin_cases j <;> simp [spec_T, Matrix.vecHead, Matrix.vecTail]

theorem spec_Rx_zero (L : cmath α) (hcos : L.cos 0 = 1) (hsin : L.sin 0 = 0) :
    spec_Rx L 0 = 1 := by
  ext i j
  fin_cases i <;> fin_cases j <;>
    simp [spec_Rx, spec_Rx3, spec_homogeneous, hcos, hsin, Matrix.vecHead, Matrix.vecTail]

theorem spec_Ry_zero (L : cmath α) (hcos : L.cos 0 = 1) (hsin : L.sin 0 = 0) :
    spec_Ry L 0 = 1 := by
  ext i j
  fin_cases i <;> fin_cases j <;>
    simp [spec_Ry, spec_Ry3, spec_homogeneous, hcos, hsin, Matrix.vecHead, Matrix.vecTail]

theorem spec_Rz_zero (L : cmath α) (hcos : L.cos 0 = 1) (hsin : L.sin 0 = 0) :
    spec_Rz L 0 = 1 := by
  ext i j
  fin_cases i <;> fin_cases j <;>
    simp [spec_Rz, spec_Rz3, spec_homogeneous, hcos, hsin, Matrix.vecHead, Matrix.vecTail]

/-- Entry (0, 1) tells `Rz · S` and `S · Rz` apart when the sine is not zero. -/
theorem spec_Rz_mul_S_ne (L : cmath α) (t : α) (hsin : L.sin t ≠ 0) :
    spec_Rz L t * spec_S (⟨2, 1, 1⟩ : vec3 α) ≠ spec_S ⟨2, 1, 1⟩ * spec_Rz L t := by
  intro h
  have h01 := congrFun (congrFun h 0) 1
  simp [Matrix.mul_apply, Fin.sum_univ_succ, spec_Rz, spec_Rz3, spec_homogeneous, spec_S,
    Matrix.vecHead, Matrix.vecTail] at h01
  apply hsin
  linear_combination -h01

/-- C11: with scale `(2, 1, 1)` and a quarter turn about Z (`cos = 0`,
`sin = 1`), the matrix the object computes is `Rz · S`, scale first and then
rotation, and it differs from `S · Rz`, rotation first and then scale. -/
theorem scale_then_rotation_ne_rotation_then_scale (L : cmath α) (t : α)
    (hcos0 : L.cos 0 = 1) (hsin0 : L.sin 0 = 0) (hsqrt : L.sqrt 1 = 1)
    (_hcos : L.cos t = 0) (hsin : L.sin t = 1) (o : Object α) :
    (((o.set_position L ⟨0, 0, 0⟩).set_scale L ⟨2, 1, 1⟩).set_rotation L
        ⟨0, 0, t⟩).model_matrix.toMatrix = spec_Rz L t * spec_S ⟨2, 1, 1⟩ ∧
      (((o.set_position L ⟨0, 0, 0⟩).set_scale L ⟨2, 1, 1⟩).set_rotation L
        ⟨0, 0, t⟩).model_matrix.toMatrix ≠ spec_S ⟨2, 1, 1⟩ * spec_Rz L t := by
  have e : (((o.set_position L ⟨0, 0, 0⟩).set_scale L ⟨2, 1, 1⟩).set_rotation L
        ⟨0, 0, t⟩).model_matrix.toMatrix = spec_Rz L t * spec_S ⟨2, 1, 1⟩ := by
    have h := update_model_matrix_entries L hsqrt
      { (o.set_position L ⟨0, 0, 0⟩).set_scale L ⟨2, 1, 1⟩ with rotation_rad := ⟨0, 0, t⟩ }
    simp only [spec_model_matrix, spec_Rx_zero L hcos0 hsin0, spec_Ry_zero L hcos0 hsin0,
      mul_one] at h
    rw [show (({ (o.set_position L ⟨0, 0, 0⟩).set_scale L ⟨2, 1, 1⟩ with
        rotation_rad := ⟨0, 0, t⟩ } : Object α).position) = ⟨0, 0, 0⟩ from rfl,
      spec_T_zero, one_mul] at h
    exact h
  refine ⟨e, ?_⟩
  rw [e]
  exact spec_Rz_mul_S_ne L t (by rw [hsin]; exact one_ne_zero)

/-- C11 at the single triangle; in `rational_cmath` the quarter turn is `t = 1`. -/
theorem scale_then_rotation_ne_rotation_then_scale_witness :
    (rational_cmath.cos 1 = 0 ∧ rational_cmath.sin 1 = 1) ∧
      (((triangle_object.set_position rational_cmath ⟨0, 0, 0⟩).set_scale rational_cmath
          ⟨2, 1, 1⟩).set_rotation rational_cmath ⟨0, 0, 1⟩).model_matrix.toMatrix
        ≠ spec_S ⟨2, 1, 1⟩ * spec_Rz rational_cmath 1 :=
  ⟨⟨by norm_num [rational_cmath], by norm_num [rational_cmath]⟩,
    (scale_then_rotation_ne_rotation_then_scale rational_cmath 1 (by simp [rational_cmath])
      (by simp [rational_cmath]) rational_sqrt_one (by norm_num [rational_cmath])
      (by norm_num [rational_cmath]) triangle_object).2⟩

/-! ### The single triangle -/

/-- C12: for the mesh of the single face `(0, 1, 2)` over the vertices
`(0,0,0), (1,0,0), (0,1,0)`, construction succeeds and all three entries of
`face_normal_vectors` are `(0, 0, 1)`. -/
theorem single_triangle_face_normal (L : cmath α) (hsqrt : L.sqrt 1 = 1)
    (np_faces : array_t Int) (np_vertices : array_t α) (color : vec4 α) (scale : vec3 α)
    (hF : np_faces.shape = [1, 3]) (hrow : np_faces.row 0 = ⟨0, 1, 2⟩)
    (hV : np_vertices.shape = [3, 3]) (hv0 : np_vertices.row 0 = ⟨0, 0, 0⟩)
    (hv1 : np_vertices.row 1 = ⟨1, 0, 0⟩) (hv2 : np_vertices.row 2 = ⟨0, 1, 0⟩) :
    ∃ o, Object.new L np_faces np_vertices color scale = .ok o ∧
      o.face_normal_vectors = [⟨0, 0, 1⟩, ⟨0, 0, 1⟩, ⟨0, 0, 1⟩] := by
  have hnf : np_faces.shape_at 0 = 1 := by simp [array_t.shape_at, hF]
  have hnv : np_vertices.shape_at 0 = 3 := by simp [array_t.shape_at, hV]
  obtain ⟨o, ho, hb⟩ := new_total L np_faces np_vertices color scale
    (by simp [array_t.ndim, hF]) (by simp [array_t.ndim, hV])
    (by simp [array_t.shape_at, hF]) (by simp [array_t.shape_at, hV])
    (by
      intro f hf k
      have hf0 : f = 0 := by omega
      subst hf0
      rw [hrow, hnv]
      fin_cases k <;> simp [vec3.get])
    (by rw [hnf]; decide)
  refine ⟨o, ho, ?_⟩
  have hn1 : o.num_faces = 1 := by rw [hb.num_faces_eq, hnf]
  have hn3 : o.num_vertices = 3 := by rw [hb.num_vertices_eq, hnv]
  have hface : face_of o.faces 0 = ⟨0, 1, 2⟩ := by
    rw [face_of_eq_of_getElem? o.faces 0 _ (hb.faces_row 0 (by omega)), hrow]
  have hp0 : position_of o.vertices 0 = ⟨0, 0, 0⟩ := by
    rw [position_of_eq_of_getElem? o.vertices 0 _ (hb.vertices_row 0 (by omega)), hv0]
  have hp1 : position_of o.vertices 1 = ⟨1, 0, 0⟩ := by
    rw [position_of_eq_of_getElem? o.vertices 1 _ (hb.vertices_row 1 (by omega)), hv1]
  have hp2 : position_of o.vertices 2 = ⟨0, 1, 0⟩ := by
    rw [position_of_eq_of_getElem? o.vertices 2 _ (hb.vertices_row 2 (by omega)), hv2]
  have hflat : spec_flat_normal L o.faces o.vertices 0 = ⟨0, 0, 1⟩ := by
    rw [← normalize_unit_z L hsqrt]
    simp [spec_flat_normal, hface, hp0, hp1, hp2, cross, vec3_sub_def]
  apply list_eq_of_getElem? _ _ 3 (by rw [hb.face_normal_vectors_length, hn1]) (by simp)
  intro j hj
  have h0 := hb.face_normal_vectors_at 0 (by omega) 0
  have h1 := hb.face_normal_vectors_at 0 (by omega) 1
  have h2 := hb.face_normal_vectors_at 0 (by omega) 2
  rw [hflat] at h0 h1 h2
  simp only [Nat.zero_mul, Nat.zero_add, Fin.val_zero, Fin.val_one, Fin.val_two] at h0 h1 h2
  rcases (by omega : j = 0 ∨ j = 1 ∨ j = 2) with rfl | rfl | rfl
  · rw [h0]; rfl
  · rw [h1]; rfl
  · rw [h2]; rfl

/-- C12 with the rational library functions and the tables of the fixture. -/
theorem single_triangle_face_normal_witness :
    ∃ o, Object.new rational_cmath triangle_faces triangle_vertices ⟨1, 1, 1, 1⟩ ⟨1, 1, 1⟩
        = .ok o ∧
      o.face_normal_vectors = [⟨0, 0, 1⟩, ⟨0, 0, 1⟩, ⟨0, 0, 1⟩] :=
  single_triangle_face_normal rational_cmath rational_sqrt_one triangle_faces
    triangle_vertices ⟨1, 1, 1, 1⟩ ⟨1, 1, 1⟩ rfl rfl rfl rfl rfl rfl

/-- C13: in a constructed mesh the three flat-normal entries of every face,
degenerate or not, are one and the same value. -/
theorem face_normal_entries_identical (L : cmath α) (np_faces : array_t Int)
    (np_vertices : array_t α) (color : vec4 α) (scale : vec3 α) (o : Object α)
    (h : Object.new L np_faces np_vertices color scale = .ok o) (f : Nat)
    (hf : f < o.num_faces) :
    ∃ n, o.face_normal_vectors[3 * f + 0]? = some n ∧
      o.face_normal_vectors[3 * f + 1]? = some n ∧
      o.face_normal_vectors[3 * f + 2]? = some n := by
  have hb := new_ok_built L np_faces np_vertices color scale o h
  have h0 := hb.face_normal_vectors_at f hf 0
  have h1 := hb.face_normal_vectors_at f hf 1
  have h2 := hb.face_normal_vectors_at f hf 2
  rw [Nat.mul_comm f 3] at h0 h1 h2
  exact ⟨_, h0, h1, h2⟩

/-- C13 at the second face of the doubly covered triangle. -/
theorem face_normal_entries_identical_witness :
    (1 : Nat) < dihedron_object.num_faces ∧
      ∃ n, dihedron_object.face_normal_vectors[3 * 1 + 0]? = some n ∧
        dihedron_object.face_normal_vectors[3 * 1 + 1]? = some n ∧
        dihedron_object.face_normal_vectors[3 * 1 + 2]? = some n :=
  ⟨by decide,
    face_normal_entries_identical rational_cmath dihedron_faces triangle_vertices ⟨1, 1, 1, 1⟩
      ⟨1, 1, 1⟩ dihedron_object dihedron_new 1 (by decide)⟩

/-! ### Face indices -/

theorem stray_new :
    Object.new rational_cmath stray_faces triangle_vertices ⟨1, 1, 1, 1⟩ ⟨1, 1, 1⟩
      = .error .out_of_bounds := by
  simp [Object.new, validate, stray_faces, triangle_vertices, array_t.of_rows, array_t.ndim,
    array_t.shape_at, for_range, List.range, List.range.loop, copy_face_step, copy_vertex_step,
    face_step, store, load, array_t.row, int_mul, INT_MAX, List.replicate, bind, Except.bind, pure,
    Except.pure,
    vec3.splat, vec3_zero_def]

/-- C14 at the failing input, the face `(0, 1, 5)` over three vertices: the
tables pass shape validation, no validation error is thrown, the face is stored
as it is, index 5 and all, and the lookup `_vertices[5]` then leaves the
three-entry buffer. -/
theorem stored_face_index_out_of_range :
    validate stray_faces triangle_vertices = .ok () ∧
      (∀ what, Object.new rational_cmath stray_faces triangle_vertices ⟨1, 1, 1, 1⟩ ⟨1, 1, 1⟩
        ≠ .error (.runtime_error what)) ∧
      for_range (stray_faces.shape_at 0) (copy_face_step stray_faces)
          (List.replicate (stray_faces.shape_at 0) (⟨0, 0, 0⟩ : vec3i))
        = .ok [⟨0, 1, 5⟩] ∧
      ¬ ((5 : Int).toNat < triangle_vertices.shape_at 0) ∧
      Object.new rational_cmath stray_faces triangle_vertices ⟨1, 1, 1, 1⟩ ⟨1, 1, 1⟩
        = .error .out_of_bounds := by
  refine ⟨rfl, ?_, rfl, by decide, stray_new⟩
  intro what h
  rw [stray_new] at h
  cases h

/-! ### What each setter changes -/

/-- C15: `set_color` changes the colour and nothing else; `set_position`,
`set_rotation` and `set_scale` each change their own vector and the model
matrix, and leave the other two transform vectors, the colour, both counts and
all five mesh buffers as they were. -/
theorem setters_change_only_their_own_state (L : cmath α) (o : Object α) (c : vec4 α)
    (v : vec3 α) :
    ((o.set_color c).color = c ∧
        (o.set_color c).position = o.position ∧
        (o.set_color c).rotation_rad = o.rotation_rad ∧
        (o.set_color c).scale = o.scale ∧
        (o.set_color c).model_matrix = o.model_matrix ∧
        (o.set_color c).num_faces = o.num_faces ∧
        (o.set_color c).num_vertices = o.num_vertices ∧
        (o.set_color c).faces = o.faces ∧
        (o.set_color c).vertices = o.vertices ∧
        (o.set_color c).face_vertices = o.face_vertices ∧
        (o.set_color c).face_normal_vectors = o.face_normal_vectors ∧
        (o.set_color c).face_vertex_normal_vectors = o.face_vertex_normal_vectors) ∧
      ((o.set_position L v).position = v ∧
        (o.set_position L v).rotation_rad = o.rotation_rad ∧
        (o.set_position L v).scale = o.scale ∧
        (o.set_position L v).color = o.color ∧
        (o.set_position L v).num_faces = o.num_faces ∧
        (o.set_position L v).num_vertices = o.num_vertices ∧
        (o.set_position L v).faces = o.faces ∧
        (o.set_position L v).vertices = o.vertices ∧
        (o.set_position L v).face_vertices = o.face_vertices ∧
        (o.set_position L v).face_normal_vectors = o.face_normal_vectors ∧
        (o.set_position L v).face_vertex_normal_vectors = o.face_vertex_normal_vectors) ∧
      ((o.set_rotation L v).rotation_rad = v ∧
        (o.set_rotation L v).position = o.position ∧
        (o.set_rotation L v).scale = o.scale ∧
        (o.set_rotation L v).color = o.color ∧
        (o.set_rotation L v).num_faces = o.num_faces ∧
        (o.set_rotation L v).num_vertices = o.num_vertices ∧
        (o.set_rotation L v).faces = o.faces ∧
        (o.set_rotation L v).vertices = o.vertices ∧
        (o.set_rotation L v).face_vertices = o.face_vertices ∧
        (o.set_rotation L v).face_normal_vectors = o.face_normal_vectors ∧
        (o.set_rotation L v).face_vertex_normal_vectors = o.face_vertex_normal_vectors) ∧
      ((o.set_scale L v).scale = v ∧
        (o.set_scale L v).position = o.position ∧
        (o.set_scale L v).rotation_rad = o.rotation_rad ∧
        (o.set_scale L v).color = o.color ∧
        (o.set_scale L v).num_faces = o.num_faces ∧
        (o.set_scale L v).num_vertices = o.num_vertices ∧
        (o.set_scale L v).faces = o.faces ∧
        (o.set_scale L v).vertices = o.vertices ∧
        (o.set_scale L v).face_vertices = o.face_vertices ∧
        (o.set_scale L v).face_normal_vectors = o.face_normal_vectors ∧
        (o.set_scale L v).face_vertex_normal_vectors = o.face_vertex_normal_vectors) :=
  ⟨⟨rfl, rfl, rfl, rfl, rfl, rfl, rfl, rfl, rfl, rfl, rfl, rfl⟩,
    ⟨rfl, rfl, rfl, rfl, rfl, rfl, rfl, rfl, rfl, rfl, rfl⟩,
    ⟨rfl, rfl, rfl, rfl, rfl, rfl, rfl, rfl, rfl, rfl, rfl⟩,
    ⟨rfl, rfl, rfl, rfl, rfl, rfl, rfl, rfl, rfl, rfl, rfl⟩⟩

/-! ### The freshly constructed object -/

/-- C16: an object constructed with colour `c` and scale `s` has position
`(0,0,0)`, rotation `(0,0,0)`, scale `s`, colour `c`, and as model matrix the
pure scale matrix `diag(s.x, s.y, s.z, 1)`. The library functions are taken
exact at these arguments: `cos 0 = 1`, `sin 0 = 0`, `sqrt 1 = 1`. -/
theorem constructed_object_initial_state (L : cmath α) (hcos : L.cos 0 = 1)
    (hsin : L.sin 0 = 0) (hsqrt : L.sqrt 1 = 1) (np_faces : array_t Int)
    (np_vertices : array_t α) (c : vec4 α) (s : vec3 α) (o : Object α)
    (h : Object.new L np_faces np_vertices c s = .ok o) :
    o.position = ⟨0, 0, 0⟩ ∧ o.rotation_rad = ⟨0, 0, 0⟩ ∧ o.scale = s ∧ o.color = c ∧
      o.model_matrix = ⟨⟨s.x, 0, 0, 0⟩, ⟨0, s.y, 0, 0⟩, ⟨0, 0, s.z, 0⟩, ⟨0, 0, 0, 1⟩⟩ ∧
      o.model_matrix.toMatrix = spec_S s := by
  have hb := new_ok_built L np_faces np_vertices c s o h
  have e : o.model_matrix
      = ⟨⟨s.x, 0, 0, 0⟩, ⟨0, s.y, 0, 0⟩, ⟨0, 0, s.z, 0⟩, ⟨0, 0, 0, 1⟩⟩ := by
    rw [hb.model_matrix_eq]
    simp [Object._update_model_matrix, hb.position_eq, hb.rotation_rad_eq, hb.scale_eq,
      vec3.splat, glm.rotate, normalize_unit_x L hsqrt, normalize_unit_y L hsqrt,
      normalize_unit_z L hsqrt, hcos, hsin, glm.translate, glm.scale, mat4.identity, vec4.smul,
      vec4_add_def, vec3.lsmul]
  refine ⟨hb.position_eq, hb.rotation_rad_eq, hb.scale_eq, hb.color_eq, e, ?_⟩
  rw [e]
  rfl

/-- C16 at the single triangle, white, unit scale. -/
theorem constructed_object_initial_state_witness :
    triangle_object.position = ⟨0, 0, 0⟩ ∧ triangle_object.rotation_rad = ⟨0, 0, 0⟩ ∧
      triangle_object.scale = ⟨1, 1, 1⟩ ∧ triangle_object.color = ⟨1, 1, 1, 1⟩ ∧
      triangle_object.model_matrix
        = ⟨⟨1, 0, 0, 0⟩, ⟨0, 1, 0, 0⟩, ⟨0, 0, 1, 0⟩, ⟨0, 0, 0, 1⟩⟩ ∧
      triangle_object.model_matrix.toMatrix = spec_S ⟨1, 1, 1⟩ :=
  constructed_object_initial_state rational_cmath (by simp [rational_cmath])
    (by simp [rational_cmath]) rational_sqrt_one triangle_faces triangle_vertices ⟨1, 1, 1, 1⟩
    ⟨1, 1, 1⟩ triangle_object triangle_new

/-! ### The order of the setter calls -/

/-- C17: the three transform setters may be called in any of the six orders:
the final object, model matrix included, is the same; so `set_scale` then
`set_rotation` gives the matrix that `set_rotation` then `set_scale` gives. -/
theorem setter_order_irrelevant (L : cmath α) (o : Object α) (p r s : vec3 α) :
    (((o.set_position L p).set_scale L s).set_rotation L r
        = ((o.set_position L p).set_rotation L r).set_scale L s ∧
      ((o.set_rotation L r).set_position L p).set_scale L s
        = ((o.set_position L p).set_rotation L r).set_scale L s ∧
      ((o.set_rotation L r).set_scale L s).set_position L p
        = ((o.set_position L p).set_rotation L r).set_scale L s ∧
      ((o.set_scale L s).set_position L p).set_rotation L r
        = ((o.set_position L p).set_rotation L r).set_scale L s ∧
      ((o.set_scale L s).set_rotation L r).set_position L p
        = ((o.set_position L p).set_rotation L r).set_scale L s) ∧
      ((o.set_scale L s).set_rotation L r).model_matrix
        = ((o.set_rotation L r).set_scale L s).model_matrix ∧
      (((o.set_position L p).set_rotation L r).set_scale L s).model_matrix
        = (Object._update_model_matrix L
            { o with position := p, rotation_rad := r, scale := s }).model_matrix := by
  simp [Object.set_position, Object.set_rotation, Object.set_scale,
    Object._update_model_matrix]

/-! ### Memory safety of the constructor -/

theorem vec3_neg_def (a : vec3 α) : -a = ⟨-a.x, -a.y, -a.z⟩ := rfl

/-- The entries written for a face whose three positions are known. -/
theorem flat_normal_entry (L : cmath α) (np_faces : array_t Int) (np_vertices : array_t α)
    (color : vec4 α) (scale : vec3 α) (o : Object α)
    (h : Object.new L np_faces np_vertices color scale = .ok o)
    (f : Nat) (face : vec3i) (va vb vc : vec3 α)
    (hface : load o.faces (f : Int) = .ok face)
    (hva : load o.vertices face.x = .ok va) (hvb : load o.vertices face.y = .ok vb)
    (hvc : load o.vertices face.z = .ok vc) (m : Fin 3) :
    o.face_normal_vectors[3 * f + m.val]?
      = some (glm.normalize L (cross (vb - va) (vc - va))) := by
  have hb := new_ok_built L np_faces np_vertices color scale o h
  obtain ⟨hlt, hget⟩ := lt_of_load_ok o.faces f face hface
  rw [hb.faces_length] at hlt
  rw [Nat.mul_comm 3 f, hb.face_normal_vectors_at f hlt m]
  simp only [spec_flat_normal, face_of_eq_of_getElem? o.faces f face hget,
    position_of_eq_of_load o.vertices _ _ hva, position_of_eq_of_load o.vertices _ _ hvb,
    position_of_eq_of_load o.vertices _ _ hvc]

theorem dot_normalize_cross_left (L : cmath α) (a b : vec3 α) :
    dot (glm.normalize L (cross a b)) a = 0 := by
  simp only [glm.normalize, dot, vec3.smul, cross]
  ring

theorem dot_normalize_cross_right (L : cmath α) (a b : vec3 α) :
    dot (glm.normalize L (cross a b)) b = 0 := by
  simp only [glm.normalize, dot, vec3.smul, cross]
  ring

theorem dot_normalize_cross_sub (L : cmath α) (a b : vec3 α) :
    dot (glm.normalize L (cross a b)) (b - a) = 0 := by
  simp only [glm.normalize, dot, vec3.smul, cross, vec3_sub_def]
  ring

theorem sub_sub_sub_eq (va vb vc : vec3 α) : vc - vb = (vc - va) - (vb - va) := by
  simp only [vec3_sub_def]
  ext <;> simp

/-- C19: for a face whose triangle is non-degenerate, the flat normal stored in
`face_normal_vectors` has unit Euclidean length and is perpendicular to the
face: its dot product with each of `vb - va`, `vc - va` and `vc - vb` is zero.
The square root is taken exact at the squared length of the cross product and
at one. -/
theorem flat_normal_unit_and_perpendicular {β : Type} [LinearOrderedField β] (L : cmath β)
    (np_faces : array_t Int) (np_vertices : array_t β) (color : vec4 β) (scale : vec3 β)
    (o : Object β) (h : Object.new L np_faces np_vertices color scale = .ok o)
    (f : Nat) (face : vec3i) (va vb vc : vec3 β)
    (hface : load o.faces (f : Int) = .ok face)
    (hva : load o.vertices face.x = .ok va) (hvb : load o.vertices face.y = .ok vb)
    (hvc : load o.vertices face.z = .ok vc)
    (hnd : cross (vb - va) (vc - va) ≠ 0)
    (hs : L.sqrt (dot (cross (vb - va) (vc - va)) (cross (vb - va) (vc - va)))
          * L.sqrt (dot (cross (vb - va) (vc - va)) (cross (vb - va) (vc - va)))
        = dot (cross (vb - va) (vc - va)) (cross (vb - va) (vc - va)))
    (hs1 : L.sqrt 1 = 1) :
    ∃ n, (∀ m : Fin 3, o.face_normal_vectors[3 * f + m.val]? = some n) ∧
      spec_length L n = 1 ∧
      dot n (vb - va) = 0 ∧ dot n (vc - va) = 0 ∧ dot n (vc - vb) = 0 := by
  refine ⟨glm.normalize L (cross (vb - va) (vc - va)),
    fun m => flat_normal_entry L np_faces np_vertices color scale o h f face va vb vc hface
      hva hvb hvc m, ?_, dot_normalize_cross_left L _ _, dot_normalize_cross_right L _ _, ?_⟩
  · have hunit := dot_normalize_self L _ (dot_self_ne_zero _ hnd) hs
    unfold spec_length
    unfold dot at hunit
    rw [hunit, hs1]
  · rw [sub_sub_sub_eq va vb vc]
    exact dot_normalize_cross_sub L _ _

/-- C19 at the single triangle: the normal `(0, 0, 1)`. -/
theorem flat_normal_unit_and_perpendicular_witness :
    cross ((⟨1, 0, 0⟩ : vec3 ℚ) - ⟨0, 0, 0⟩) ((⟨0, 1, 0⟩ : vec3 ℚ) - ⟨0, 0, 0⟩) ≠ 0 ∧
      ∃ n, (∀ m : Fin 3, triangle_object.face_normal_vectors[3 * 0 + m.val]? = some n) ∧
        spec_length rational_cmath n = 1 ∧
        dot n ((⟨1, 0, 0⟩ : vec3 ℚ) - ⟨0, 0, 0⟩) = 0 ∧
        dot n ((⟨0, 1, 0⟩ : vec3 ℚ) - ⟨0, 0, 0⟩) = 0 ∧
        dot n ((⟨0, 1, 0⟩ : vec3 ℚ) - ⟨1, 0, 0⟩) = 0 :=
  ⟨by simp [cross, vec3_sub_def, vec3_zero_def],
    flat_normal_unit_and_perpendicular rational_cmath triangle_faces triangle_vertices
      ⟨1, 1, 1, 1⟩ ⟨1, 1, 1⟩ triangle_object triangle_new 0 ⟨0, 1, 2⟩ ⟨0, 0, 0⟩ ⟨1, 0, 0⟩
      ⟨0, 1, 0⟩ rfl rfl rfl rfl
      (by simp [cross, vec3_sub_def, vec3_zero_def])
      (by simp [cross, dot, vec3_sub_def, rational_cmath, rational_sqrt_one])
      rational_sqrt_one⟩

theorem normalize_neg (L : cmath α) (v : vec3 α) :
    glm.normalize L (-v) = -(glm.normalize L v) := by
  have hd : dot (-v) (-v) = dot v v := by
    simp only [dot, vec3_neg_def]
    ring
  unfold glm.normalize
  rw [hd]
  simp only [vec3.smul, vec3_neg_def]
  ext <;> dsimp only <;> ring

theorem cross_swap (a b : vec3 α) : cross b a = -(cross a b) := by
  simp only [cross, vec3_neg_def]
  ext <;> dsimp only <;> ring

theorem cross_cycle_one (va vb vc : vec3 α) :
    cross (vc - vb) (va - vb) = cross (vb - va) (vc - va) := by
  simp only [cross, vec3_sub_def]
  ext <;> dsimp only <;> ring

theorem cross_cycle_two (va vb vc : vec3 α) :
    cross (va - vc) (vb - vc) = cross (vb - va) (vc - va) := by
  simp only [cross, vec3_sub_def]
  ext <;> dsimp only <;> ring

/-- C20: for a non-degenerate face `(i, j, k)` with flat normal `n`, a face
`(i, k, j)` of the same mesh, the winding reversed, has flat normal `-n`, and
the cyclically rotated faces `(j, k, i)` and `(k, i, j)` have flat normal `n`. -/
theorem flat_normal_winding (L : cmath α) (np_faces : array_t Int)
    (np_vertices : array_t α) (color : vec4 α) (scale : vec3 α) (o : Object α)
    (h : Object.new L np_faces np_vertices color scale = .ok o)
    (f : Nat) (i j k : Int) (va vb vc : vec3 α)
    (hface : load o.faces (f : Int) = .ok ⟨i, j, k⟩)
    (hva : load o.vertices i = .ok va) (hvb : load o.vertices j = .ok vb)
    (hvc : load o.vertices k = .ok vc)
    (_hnd : cross (vb - va) (vc - va) ≠ 0) :
    ∃ n, (∀ m : Fin 3, o.face_normal_vectors[3 * f + m.val]? = some n) ∧
      (∀ g : Nat, load o.faces (g : Int) = .ok ⟨i, k, j⟩ →
        ∀ m : Fin 3, o.face_normal_vectors[3 * g + m.val]? = some (-n)) ∧
      (∀ g : Nat, load o.faces (g : Int) = .ok ⟨j, k, i⟩ →
        ∀ m : Fin 3, o.face_normal_vectors[3 * g + m.val]? = some n) ∧
      (∀ g : Nat, load o.faces (g : Int) = .ok ⟨k, i, j⟩ →
        ∀ m : Fin 3, o.face_normal_vectors[3 * g + m.val]? = some n) := by
  refine ⟨glm.normalize L (cross (vb - va) (vc - va)),
    fun m => flat_normal_entry L np_faces np_vertices color scale o h f ⟨i, j, k⟩ va vb vc
      hface hva hvb hvc m, fun g hg m => ?_, fun g hg m => ?_, fun g hg m => ?_⟩
  · rw [flat_normal_entry L np_faces np_vertices color scale o h g ⟨i, k, j⟩ va vc vb hg hva
      hvc hvb m, cross_swap (vb - va) (vc - va), normalize_neg]
  · rw [flat_normal_entry L np_faces np_vertices color scale o h g ⟨j, k, i⟩ vb vc va hg hvb
      hvc hva m, cross_cycle_one va vb vc]
  · rw [flat_normal_entry L np_faces np_vertices color scale o h g ⟨k, i, j⟩ vc va vb hg hvc
      hva hvb m, cross_cycle_two va vb vc]

/-- C20 at the doubly covered triangle: face 1 is face 0 with the winding
reversed, and its entries are the negated normal. -/
theorem flat_normal_winding_witness :
    cross ((⟨1, 0, 0⟩ : vec3 ℚ) - ⟨0, 0, 0⟩) ((⟨0, 1, 0⟩ : vec3 ℚ) - ⟨0, 0, 0⟩) ≠ 0 ∧
      ∃ n, (∀ m : Fin 3, dihedron_object.face_normal_vectors[3 * 0 + m.val]? = some n) ∧
        ∀ m : Fin 3, dihedron_object.face_normal_vectors[3 * 1 + m.val]? = some (-n) :=
  ⟨by simp [cross, vec3_sub_def, vec3_zero_def],
    match flat_normal_winding rational_cmath dihedron_faces triangle_vertices ⟨1, 1, 1, 1⟩
      ⟨1, 1, 1⟩ dihedron_object dihedron_new 0 0 1 2 ⟨0, 0, 0⟩ ⟨1, 0, 0⟩ ⟨0, 1, 0⟩ rfl rfl rfl
      rfl (by simp [cross, vec3_sub_def, vec3_zero_def]) with
    | ⟨n, h0, hrev, _, _⟩ => ⟨n, h0, hrev 1 rfl⟩⟩

end three.scene
